import Mathlib

/-!
Verification of the cabin dependency-versioning and build-caching engine.

This file embeds, in Lean, the core of the cabin repository:

* `calculate_sha` and the formula fingerprinting of `Dataset.__init__`
  (src/cabin/core.py), including a faithful model of Python's
  `json.dumps` with its default settings (`ensure_ascii=True`,
  separators `", "` and `": "`) restricted to the JSON fragment that
  formulas inhabit (objects, strings and `null`);
* a byte-level SHA-256 so that `calculate_sha` (8-hex-char truncation
  of SHA-256 of the UTF-8 bytes) is executable inside Lean;
* the recursive build engine `Dataset.produce_recursive` together with
  `ImportedTable.exists`/`produce`/`failed_import_cleanup` and the
  `system` ledger table (src/cabin/db.py), as a state machine over an
  explicit database state;
* `HistoricalDataset.__init__`/`is_latest` (src/cabin/core.py), the
  type registry filter (src/cabin/registry.py), and the `import`
  command front end (src/cabin/app.py) with `fnmatch`-style globbing.
-/

namespace Cabin

/-! ## JSON values

The JSON fragment produced by `Dataset.__init__`: formulas are nested
objects whose leaves are strings (`type`, dependency keys) or `null`
(a missing `version`).  `JFields` is the (ordered) field list of an
object; order is significant, exactly as for Python dicts. -/

mutual

inductive JValue where
  | null : JValue
  | str : String → JValue
  | obj : JFields → JValue

inductive JFields where
  | nil : JFields
  | cons : String → JValue → JFields → JFields

end

mutual

def JValue.beq : JValue → JValue → Bool
  | .null, .null => true
  | .str s, .str t => s == t
  | .obj fs, .obj gs => JFields.beq fs gs
  | _, _ => false
  termination_by structural v => v

def JFields.beq : JFields → JFields → Bool
  | .nil, .nil => true
  | .cons k v fs, .cons k' v' fs' => k == k' && JValue.beq v v' && JFields.beq fs fs'
  | _, _ => false
  termination_by structural fs => fs

end

mutual

theorem JValue.beqv_iff : ∀ v w : JValue, JValue.beq v w = true ↔ v = w
  | .null, .null => by simp [JValue.beq]
  | .null, .str _ => by simp [JValue.beq]
  | .null, .obj _ => by simp [JValue.beq]
  | .str _, .null => by simp [JValue.beq]
  | .str s, .str t => by simp [JValue.beq]
  | .str _, .obj _ => by simp [JValue.beq]
  | .obj _, .null => by simp [JValue.beq]
  | .obj _, .str _ => by simp [JValue.beq]
  | .obj fs, .obj gs => by
    simp [JValue.beq, JFields.beqf_iff fs gs]

theorem JFields.beqf_iff : ∀ fs gs : JFields, JFields.beq fs gs = true ↔ fs = gs
  | .nil, .nil => by simp [JFields.beq]
  | .nil, .cons _ _ _ => by simp [JFields.beq]
  | .cons _ _ _, .nil => by simp [JFields.beq]
  | .cons k v fs, .cons k' v' gs => by
    simp [JFields.beq, JValue.beqv_iff v v', JFields.beqf_iff fs gs, and_assoc]

end

instance : DecidableEq JValue := fun v w =>
  decidable_of_iff (JValue.beq v w = true) (JValue.beqv_iff v w)

instance : DecidableEq JFields := fun fs gs =>
  decidable_of_iff (JFields.beq fs gs = true) (JFields.beqf_iff fs gs)

/-- The field list of an object as an ordinary list (for stating
membership and permutation facts about key-value bindings). -/
def JFields.toList : JFields → List (String × JValue)
  | .nil => []
  | .cons k v fs => (k, v) :: JFields.toList fs

/-! ## Python `json.dumps`, default settings

`json.dumps` is called on formulas with all defaults: `ensure_ascii=True`
(every character outside `0x20..0x7e` is `\uXXXX`-escaped, astral
characters as surrogate pairs), separators `", "` between items and
`": "` after keys, no sorting of keys (insertion order is kept). -/

/-- Lowercase hex digit, as produced by Python's `"%04x"` formatting. -/
def hexDigit (n : Nat) : Char :=
  if n < 10 then Char.ofNat (48 + n) else Char.ofNat (87 + n)

/-- Four lowercase hex digits, most significant first (`"%04x" % n`). -/
def hex4 (n : Nat) : List Char :=
  [hexDigit (n / 4096 % 16), hexDigit (n / 256 % 16),
   hexDigit (n / 16 % 16), hexDigit (n % 16)]

/-- Encoding of one character inside a JSON string literal, following
`json.encoder.py_encode_basestring_ascii`: the short escapes of
`ESCAPE_DCT`, literal characters for `0x20..0x7e`, `\uXXXX` otherwise,
with a surrogate pair for characters beyond the BMP. -/
def escapeChar (c : Char) : List Char :=
  if c = '"' then ['\\', '"']
  else if c = '\\' then ['\\', '\\']
  else if c = '\n' then ['\\', 'n']
  else if c = '\r' then ['\\', 'r']
  else if c = '\t' then ['\\', 't']
  else if c = Char.ofNat 8 then ['\\', 'b']
  else if c = Char.ofNat 12 then ['\\', 'f']
  else if 32 ≤ c.toNat ∧ c.toNat ≤ 126 then [c]
  else if c.toNat < 65536 then '\\' :: 'u' :: hex4 c.toNat
  else
    let n := c.toNat - 65536
    ('\\' :: 'u' :: hex4 (55296 + n / 1024)) ++ ('\\' :: 'u' :: hex4 (56320 + n % 1024))

/-- A JSON string literal: quote, escaped characters, quote. -/
def encodeJString (s : String) : List Char :=
  '"' :: (s.data.flatMap escapeChar) ++ ['"']

mutual

/-- `json.dumps` of a value, as a character list. -/
def dumpV : JValue → List Char
  | .null => ['n', 'u', 'l', 'l']
  | .str s => encodeJString s
  | .obj .nil => ['{', '}']
  | .obj (.cons k v fs) =>
    '{' :: ((encodeJString k ++ ':' :: ' ' :: dumpV v) ++ dumpTail fs) ++ ['}']
  termination_by structural v => v

/-- The remaining items of an object, each preceded by the `", "`
item separator. -/
def dumpTail : JFields → List Char
  | .nil => []
  | .cons k v fs => ',' :: ' ' :: (encodeJString k ++ ':' :: ' ' :: dumpV v) ++ dumpTail fs
  termination_by structural fs => fs

end

/-- One `"key": value` item of a dumped object. -/
def dumpMember (k : String) (v : JValue) : List Char :=
  encodeJString k ++ ':' :: ' ' :: dumpV v

/-- `json.dumps` of a value, as a string. -/
def dumps (v : JValue) : String := ⟨dumpV v⟩

/-! ## UTF-8 and SHA-256: `calculate_sha` (src/cabin/core.py lines 13-16)

`calculate_sha(obj, num_chars=8)` hashes `obj.encode('utf-8')` with
SHA-256 and keeps the first 8 characters of the lowercase hex digest. -/

/-- UTF-8 encoding of one character (Lean `Char` is a Unicode scalar
value, so the four standard cases cover everything). -/
def utf8Char (c : Char) : List Nat :=
  let n := c.toNat
  if n < 128 then [n]
  else if n < 2048 then [192 + n / 64, 128 + n % 64]
  else if n < 65536 then [224 + n / 4096, 128 + n / 64 % 64, 128 + n % 64]
  else [240 + n / 262144, 128 + n / 4096 % 64, 128 + n / 64 % 64, 128 + n % 64]

/-- UTF-8 bytes of a string (`str.encode('utf-8')`). -/
def utf8Bytes (s : String) : List Nat := s.data.flatMap utf8Char

/-- The SHA-256 round constants. -/
def shaK : List Nat :=
  [1116352408, 1899447441, 3049323471, 3921009573, 961987163, 1508970993,
   2453635748, 2870763221, 3624381080, 310598401, 607225278, 1426881987,
   1925078388, 2162078206, 2614888103, 3248222580, 3835390401, 4022224774,
   264347078, 604807628, 770255983, 1249150122, 1555081692, 1996064986,
   2554220882, 2821834349, 2952996808, 3210313671, 3336571891, 3584528711,
   113926993, 338241895, 666307205, 773529912, 1294757372, 1396182291,
   1695183700, 1986661051, 2177026350, 2456956037, 2730485921, 2820302411,
   3259730800, 3345764771, 3516065817, 3600352804, 4094571909, 275423344,
   430227734, 506948616, 659060556, 883997877, 958139571, 1322822218,
   1537002063, 1747873779, 1955562222, 2024104815, 2227730452, 2361852424,
   2428436474, 2756734187, 3204031479, 3329325298]

/-- The SHA-256 initial hash state. -/
def shaH0 : List Nat :=
  [1779033703, 3144134277, 1013904242, 2773480762,
   1359893119, 2600822924, 528734635, 1541459225]

/-- 32-bit right rotation (arguments below `2 ^ 32`). -/
def rotr (n x : Nat) : Nat := x / 2 ^ n + x % 2 ^ n * 2 ^ (32 - n)

def shaSmallSigma0 (x : Nat) : Nat := (rotr 7 x).xor ((rotr 18 x).xor (x / 2 ^ 3))

def shaSmallSigma1 (x : Nat) : Nat := (rotr 17 x).xor ((rotr 19 x).xor (x / 2 ^ 10))

def shaBigSigma0 (x : Nat) : Nat := (rotr 2 x).xor ((rotr 13 x).xor (rotr 22 x))

def shaBigSigma1 (x : Nat) : Nat := (rotr 6 x).xor ((rotr 11 x).xor (rotr 25 x))

def shaCh (x y z : Nat) : Nat := (x.land y).xor ((x.xor 4294967295).land z)

def shaMaj (x y z : Nat) : Nat := (x.land y).xor ((x.land z).xor (y.land z))

/-- Split the padded message into big-endian 32-bit words. -/
def bytesToWords : List Nat → List Nat
  | a :: b :: c :: d :: rest => (((a * 256 + b) * 256 + c) * 256 + d) :: bytesToWords rest
  | _ => []

/-- Extend the 16 words of a chunk to the 64-word message schedule. -/
def shaExtend : Nat → List Nat → List Nat
  | 0, w => w
  | n + 1, w =>
    let i := w.length
    let next := (shaSmallSigma1 (w.getD (i - 2) 0) + w.getD (i - 7) 0 +
      shaSmallSigma0 (w.getD (i - 15) 0) + w.getD (i - 16) 0) % 4294967296
    shaExtend n (w ++ [next])

/-- One round of the SHA-256 compression function. -/
def shaRound (st : List Nat) (kw : Nat × Nat) : List Nat :=
  match st with
  | [a, b, c, d, e, f, g, h] =>
    let t1 := (h + shaBigSigma1 e + shaCh e f g + kw.1 + kw.2) % 4294967296
    let t2 := (shaBigSigma0 a + shaMaj a b c) % 4294967296
    [(t1 + t2) % 4294967296, a, b, c, (d + t1) % 4294967296, e, f, g]
  | st => st

/-- Process one 64-byte chunk, updating the 8-word hash state. -/
def shaChunk (h : List Nat) (chunk : List Nat) : List Nat :=
  let w := shaExtend 48 (bytesToWords chunk)
  let st := (shaK.zip w).foldl shaRound h
  (h.zip st).map (fun p => (p.1 + p.2) % 4294967296)

/-- Split a list into chunks of 64 (structural recursion on a fuel
bound so that the kernel can evaluate it). -/
def chunks64Aux : Nat → List Nat → List (List Nat)
  | 0, _ => []
  | _, [] => []
  | n + 1, a :: t => ((a :: t).take 64) :: chunks64Aux n ((a :: t).drop 64)

/-- Split a list into chunks of 64. -/
def chunks64 (l : List Nat) : List (List Nat) := chunks64Aux l.length l

/-- SHA-256 padding: `0x80`, zeros to 56 mod 64, 8-byte big-endian bit length. -/
def shaPad (msg : List Nat) : List Nat :=
  let len := msg.length
  let zeros := (64 + 56 - (len + 1) % 64) % 64
  let bits := len * 8
  msg ++ 128 :: List.replicate zeros 0 ++
    [bits / 2 ^ 56 % 256, bits / 2 ^ 48 % 256, bits / 2 ^ 40 % 256, bits / 2 ^ 32 % 256,
     bits / 2 ^ 24 % 256, bits / 2 ^ 16 % 256, bits / 2 ^ 8 % 256, bits % 256]

/-- One 32-bit word as 8 lowercase hex digits. -/
def wordHex (w : Nat) : List Char :=
  [hexDigit (w / 16 ^ 7 % 16), hexDigit (w / 16 ^ 6 % 16), hexDigit (w / 16 ^ 5 % 16),
   hexDigit (w / 16 ^ 4 % 16), hexDigit (w / 16 ^ 3 % 16), hexDigit (w / 16 ^ 2 % 16),
   hexDigit (w / 16 % 16), hexDigit (w % 16)]

/-- Lowercase hex digest of the SHA-256 of a byte list (`hexdigest()`). -/
def sha256Hex (msg : List Nat) : String :=
  ⟨((chunks64 (shaPad msg)).foldl shaChunk shaH0).flatMap wordHex⟩

/-- `calculate_sha` (src/cabin/core.py): first 8 hex characters of the
SHA-256 of the UTF-8 encoding. -/
def calculateSha (obj : String) : String :=
  ⟨(sha256Hex (utf8Bytes obj)).data.take 8⟩

/-! ## Dataset types

A `DClass` is a dataset class declaration as the engine sees it: the
class name (`cls.__name__`, used both as `type` and as the dependency
key), the `version` class attribute (`Option String`, since its default
is `None`), whether the class is an `ImportedTable` subclass, its
`tags`, the behaviour of the subclass-supplied `import_table` and
optional `check` hooks (whether they raise when invoked), and its
`depends` list.  `DList` is the dependency list (a mutual inductive so
that all recursions stay structural and kernel-evaluable).

`Dataset.__init__` builds `inputs` as
`OrderedDict([(klass.__name__, klass()) for klass in self.depends])`.
An `OrderedDict` would collapse duplicate dependency class names; type
names are globally unique (the registry asserts on duplicates), so a
`depends` list never holds two classes of the same name and the plain
pair list used here is equivalent. -/

mutual

inductive DClass where
  | mk : (cname : String) → (version : Option String) → (isTable : Bool) →
    (tags : List String) → (importFails : Bool) → (hasCheck : Bool) →
    (checkFails : Bool) → (depends : DList) → DClass

inductive DList where
  | nil : DList
  | cons : DClass → DList → DList

end

def DClass.cname : DClass → String
  | .mk n _ _ _ _ _ _ _ => n

def DClass.version : DClass → Option String
  | .mk _ v _ _ _ _ _ _ => v

def DClass.isTable : DClass → Bool
  | .mk _ _ b _ _ _ _ _ => b

def DClass.tags : DClass → List String
  | .mk _ _ _ t _ _ _ _ => t

def DClass.importFails : DClass → Bool
  | .mk _ _ _ _ b _ _ _ => b

def DClass.hasCheck : DClass → Bool
  | .mk _ _ _ _ _ b _ _ => b

def DClass.checkFails : DClass → Bool
  | .mk _ _ _ _ _ _ b _ => b

def DClass.depends : DClass → DList
  | .mk _ _ _ _ _ _ _ d => d

mutual

def DClass.beq : DClass → DClass → Bool
  | .mk n v tb tg imf hc cf d, .mk n' v' tb' tg' imf' hc' cf' d' =>
    n == n' && v == v' && tb == tb' && tg == tg' && imf == imf' && hc == hc' &&
      cf == cf' && DList.beq d d'
  termination_by structural c => c

def DList.beq : DList → DList → Bool
  | .nil, .nil => true
  | .cons c d, .cons c' d' => DClass.beq c c' && DList.beq d d'
  | _, _ => false
  termination_by structural d => d

end

mutual

theorem DClass.beqc_iff : ∀ c c' : DClass, DClass.beq c c' = true ↔ c = c'
  | .mk n v tb tg imf hc cf d, .mk n' v' tb' tg' imf' hc' cf' d' => by
    simp [DClass.beq, DList.beqd_iff d d', and_assoc]
  termination_by structural c => c

theorem DList.beqd_iff : ∀ d d' : DList, DList.beq d d' = true ↔ d = d'
  | .nil, .nil => by simp [DList.beq]
  | .nil, .cons _ _ => by simp [DList.beq]
  | .cons _ _, .nil => by simp [DList.beq]
  | .cons c d, .cons c' d' => by
    simp [DList.beq, DClass.beqc_iff c c', DList.beqd_iff d d']
  termination_by structural d => d

end

instance : DecidableEq DClass := fun c c' =>
  decidable_of_iff (DClass.beq c c' = true) (DClass.beqc_iff c c')

instance : DecidableEq DList := fun d d' =>
  decidable_of_iff (DList.beq d d' = true) (DList.beqd_iff d d')

/-- `None`/string version as it appears in the serialized formula. -/
def jOfVersion : Option String → JValue
  | none => .null
  | some s => .str s

mutual

/-- The formula computed by `Dataset.__init__` (src/cabin/core.py lines
90-97): an ordered mapping with keys `type`, `version`, `inputs`, where
`inputs` maps each dependency class name to the dependency's formula,
in `depends` declaration order. -/
def formulaOf : DClass → JValue
  | .mk n v _ _ _ _ _ deps =>
    .obj (.cons "type" (.str n) (.cons "version" (jOfVersion v)
      (.cons "inputs" (.obj (inputsOf deps)) .nil)))
  termination_by structural c => c

/-- The `inputs` member of a formula. -/
def inputsOf : DList → JFields
  | .nil => .nil
  | .cons c rest => .cons c.cname (formulaOf c) (inputsOf rest)
  termination_by structural d => d

end

/-- `self.formula_json = json.dumps(self.formula)`. -/
def formulaJson (c : DClass) : String := dumps (formulaOf c)

/-- `self.formula_sha = calculate_sha(self.formula_json)`. -/
def formulaSha (c : DClass) : String := calculateSha (formulaJson c)

/-- `Dataset.__init__` as an operation that can in principle raise.  Its
body (src/cabin/core.py lines 80-99) instantiates the dependencies,
builds the formula and hashes it; no step checks `version`, so the
constructor never raises and a `None` version is embedded as `null`. -/
def datasetInit (c : DClass) : Except String JValue :=
  .ok (formulaOf c)

/-- Stable insertion into a key-sorted list of `(key, value)` pairs
(used to model Python's `sorted`; dependency keys are unique so ties
never occur). -/
def insertByKey (p : String × List (Option String)) :
    List (String × List (Option String)) → List (String × List (Option String))
  | [] => [p]
  | q :: rest => if p.1 < q.1 then p :: q :: rest else q :: insertByKey p rest

/-- Sort `(key, value)` pairs by key (`sorted(self.inputs.items())`). -/
def sortByKey (l : List (String × List (Option String))) :
    List (String × List (Option String)) :=
  l.foldl (fun acc p => insertByKey p acc) []

mutual

/-- `Dataset.root_versions` (src/cabin/core.py lines 140-150): the
versions of all root ancestors, dependencies visited in key-sorted
order.  (The recursive calls are evaluated on the declaration-ordered
dependency list and the results reordered by key, which is equivalent
to sorting first since the recursion is pure.) -/
def rootVersions : DClass → List (Option String)
  | .mk _ v _ _ _ _ _ .nil => [v]
  | .mk _ _ _ _ _ _ _ (.cons c rest) =>
    ((sortByKey (rvPairs (.cons c rest))).map (fun p => p.2)).flatten
  termination_by structural c => c

/-- Root versions of each dependency, keyed by dependency class name. -/
def rvPairs : DList → List (String × List (Option String))
  | .nil => []
  | .cons c rest => (c.cname, rootVersions c) :: rvPairs rest
  termination_by structural d => d

end

/-- `'::'.join(...)` over root versions.  Python's `join` raises
`TypeError` on a `None` element; datasets reached by `produce` always
have string versions (the registry refuses classes without one), so the
`None` case (rendered here as the empty string) is unreachable there. -/
def joinColons : List (Option String) → String
  | [] => ""
  | [v] => v.getD ""
  | v :: rest => v.getD "" ++ "::" ++ joinColons rest

/-- `Dataset.name` (src/cabin/core.py lines 165-174):
`'{type}::{roots}::{sha}'` with the first two root versions. -/
def nameOf (c : DClass) : String :=
  c.cname ++ "::" ++ joinColons ((rootVersions c).take 2) ++ "::" ++ formulaSha c

/-! ## The `system` ledger and `ImportedTable` (src/cabin/db.py)

A ledger row carries the columns of `_update_system_table`; the
database state is the set of existing tables (by name; row contents of
imported tables are irrelevant to the engine) plus the ledger rows in
insertion order. -/

structure Row where
  rtype : String
  name : String
  formula : String
  sha : String
  tableName : String
  instanceId : String
deriving DecidableEq

structure DBState where
  tables : List String
  system : List Row
deriving DecidableEq

/-- Number of ledger rows with the given sha
(`SELECT COUNT(*) FROM system WHERE sha = '...'`). -/
def countSha (s : DBState) (sha : String) : Nat :=
  (s.system.filter (fun r => r.sha == sha)).length

/-- `ImportedTable.exists` (src/cabin/db.py lines 23-30): the count is
returned and used for its truthiness. -/
def existsB (s : DBState) (sha : String) : Bool :=
  countSha s sha != 0

/-- The row inserted by `_update_system_table` (src/cabin/db.py lines
74-83). -/
def rowOf (iid : String) (c : DClass) : Row :=
  ⟨c.cname, nameOf c, formulaJson c, formulaSha c, nameOf c, iid⟩

/-- `failed_import_cleanup` (src/cabin/db.py lines 58-60):
`DROP TABLE IF EXISTS` the table and `DELETE FROM system WHERE name =`
the table name. -/
def cleanupFailedImport (c : DClass) (s : DBState) : DBState :=
  ⟨s.tables.filter (fun t => t != nameOf c),
   s.system.filter (fun r => r.name != nameOf c)⟩

/-- `ImportedTable.produce` (src/cabin/db.py lines 32-52): create the
table, run the subclass `import_table`, insert the ledger row (which
first asserts a non-empty `SGX_INSTANCE_ID`); on any exception run
`failed_import_cleanup` with a fresh cursor and re-raise.  `.error`
carries the database state after cleanup.  (`CREATE TABLE` is modelled
as unconditionally adding the table name; imported row contents are
not modelled.) -/
def produceTable (iid : String) (c : DClass) (s : DBState) : Except DBState DBState :=
  let s1 : DBState := ⟨s.tables ++ [nameOf c], s.system⟩
  if c.importFails then .error (cleanupFailedImport c s1)
  else if iid = "" then .error (cleanupFailedImport c s1)
  else .ok ⟨s1.tables, s1.system ++ [rowOf iid c]⟩

/-- The database state carried by a build outcome: the post-state on
success, the state at the moment of the raise on an exception. -/
def stateOfE : Except DBState DBState → DBState
  | .ok s => s
  | .error s => s

/-- Observable build events: an `exists()` poll, a `produce()` call, a
`check()` call, each tagged with the instance's formula sha. -/
inductive Ev where
  | existsCheck : String → Ev
  | produceCall : String → Ev
  | checkCall : String → Ev
deriving DecidableEq

mutual

/-- `Dataset.produce_recursive` (src/cabin/core.py lines 121-138): if
`exists()` is truthy, return; otherwise recurse into the dependencies
in declaration order, then (unless `dry_run`) call `produce()` and, if
the instance has a `check` attribute, `check()`.  A raised exception
propagates unchanged (there is no handler in `produce_recursive`
itself); `.error` carries the database state at the raise. -/
def produceRec (iid : String) (dry : Bool) :
    DClass → DBState → Except DBState DBState × List Ev
  | c@(.mk _ _ _ _ _ _ _ deps), s =>
    if existsB s (formulaSha c) then (.ok s, [.existsCheck (formulaSha c)])
    else
      match produceDeps iid dry deps s with
      | (.error s1, tr) => (.error s1, .existsCheck (formulaSha c) :: tr)
      | (.ok s1, tr) =>
        if dry then (.ok s1, .existsCheck (formulaSha c) :: tr)
        else
          match produceTable iid c s1 with
          | .error s2 =>
            (.error s2, .existsCheck (formulaSha c) :: (tr ++ [.produceCall (formulaSha c)]))
          | .ok s2 =>
            if c.hasCheck then
              if c.checkFails then
                (.error s2, .existsCheck (formulaSha c) ::
                  (tr ++ [.produceCall (formulaSha c), .checkCall (formulaSha c)]))
              else
                (.ok s2, .existsCheck (formulaSha c) ::
                  (tr ++ [.produceCall (formulaSha c), .checkCall (formulaSha c)]))
            else
              (.ok s2, .existsCheck (formulaSha c) :: (tr ++ [.produceCall (formulaSha c)]))
  termination_by structural c => c

/-- The dependency loop of `produce_recursive`: recurse into each input
in order, aborting on the first exception. -/
def produceDeps (iid : String) (dry : Bool) :
    DList → DBState → Except DBState DBState × List Ev
  | .nil, s => (.ok s, [])
  | .cons c rest, s =>
    match produceRec iid dry c s with
    | (.error s1, tr) => (.error s1, tr)
    | (.ok s1, tr) =>
      match produceDeps iid dry rest s1 with
      | (r, tr2) => (r, tr ++ tr2)
  termination_by structural d => d

end

mutual

/-- All nodes of a dependency tree (the instance itself and,
recursively, every dependency instance). -/
def nodesOf : DClass → List DClass
  | c@(.mk _ _ _ _ _ _ _ deps) => c :: nodesList deps
  termination_by structural c => c

def nodesList : DList → List DClass
  | .nil => []
  | .cons c rest => nodesOf c ++ nodesList rest
  termination_by structural d => d

end

/-! ## The type registry (src/cabin/registry.py)

`import_dataset_classes` walks all dataset modules and collects every
`Dataset` subclass with a truthy `version` attribute (`None` and the
empty string are falsy; such classes are treated as abstract base
classes and skipped).  The duplicate-name assertion only tolerates the
same class object seen twice, so registered names are unique. -/

/-- Truthiness of `getattr(cls, 'version', None)`. -/
def versionTruthy : Option String → Bool
  | none => false
  | some s => s != ""

/-- The registry built from the discovered classes, as an association
list from class name to class. -/
def registryOf (found : List DClass) : List (String × DClass) :=
  (found.filter (fun c => versionTruthy c.version)).map (fun c => (c.cname, c))

/-- Key lookup in an object's field list (dictionaries built by
`json.loads` bind each key once, so first match suffices). -/
def jFieldsGet : JFields → String → Option JValue
  | .nil, _ => none
  | .cons k' v rest, k => if k' == k then some v else jFieldsGet rest k

/-- Field access `obj[key]` on a JSON object (`None` for a missing key
or a non-object; Python raises `KeyError`/`TypeError` there). -/
def jGet : JValue → String → Option JValue
  | .obj fs, k => jFieldsGet fs k
  | _, _ => none

/-- `HistoricalDataset.is_latest` (src/cabin/core.py lines 226-245):
look up the stored `type` name in the current registry; absent means
stale; otherwise instantiate the current class and compare its formula
sha with this dataset's formula sha (which `__init__` recomputed as
`calculate_sha(json.dumps(formula))`).  (A stored `type` that is not a
string is never a registry key; Python would raise `TypeError` for
unhashable values there, the model simply answers `false`.) -/
def isLatest (reg : List (String × DClass)) (formula : JValue) : Bool :=
  match jGet formula "type" with
  | some (.str t) =>
    match reg.lookup t with
    | none => false
    | some cls => formulaSha cls == calculateSha (dumps formula)
  | _ => false

/-! ## `HistoricalDataset.__init__` (src/cabin/core.py lines 197-213)

Reconstructs a dataset tree from a stored formula: reads `type` and
`version`, recomputes `formula_json`/`formula_sha` from the formula
value, asserts the recomputed sha against the stored one when a truthy
`sha` argument is given, and recursively resurrects every entry of
`inputs` (without a sha argument).  Any raised exception is modelled as
`.error`. -/

inductive HData where
  | mk : (htype : JValue) → (hversion : JValue) → (hname : Option String) →
    (hformula : JValue) → (hjson : String) → (hsha : String) →
    (hinputs : List (String × HData)) → HData

def HData.hsha : HData → String
  | .mk _ _ _ _ _ s _ => s

def HData.hjson : HData → String
  | .mk _ _ _ _ j _ _ => j

def HData.hformula : HData → JValue
  | .mk _ _ _ f _ _ _ => f

/-- Truthiness of the optional `sha` argument (`if sha:`). -/
def shaTruthy : Option String → Bool
  | none => false
  | some s => s != ""

theorem jFieldsGet_sizeOf : ∀ (fs : JFields) (k : String) (v : JValue),
    jFieldsGet fs k = some v → sizeOf v < sizeOf fs
  | .nil, k, v => by intro h; simp [jFieldsGet] at h
  | .cons k' v' rest, k, v => by
    intro h
    simp only [jFieldsGet] at h
    by_cases hk : (k' == k) = true
    · rw [if_pos hk] at h
      cases h
      simp
      omega
    · rw [if_neg hk] at h
      have := jFieldsGet_sizeOf rest k v h
      simp
      omega

mutual

def hdInit : JValue → Option String → Option String → Except String HData
  | .obj fs, name, sha =>
    match jFieldsGet fs "type" with
    | none => .error "KeyError: type"
    | some t =>
      match jFieldsGet fs "version" with
      | none => .error "KeyError: version"
      | some ver =>
        let fjson := dumps (.obj fs)
        let fsha := calculateSha fjson
        if shaTruthy sha && (some fsha != sha) then
          .error "Bad SHA"
        else
          match hdFindInputs fs with
          | .error e => .error e
          | .ok inps => .ok (.mk t ver name (.obj fs) fjson fsha inps)
  | _, _, _ => .error "TypeError: not a dict"
  termination_by structural f _ _ => f

/-- The lookup `formula['inputs']` followed by the `.items()` walk:
scan the field list for the first `inputs` key (which is what
`jFieldsGet fs "inputs"` computes); written as a direct scan so the
recursion into the found sub-object is structural. -/
def hdFindInputs : JFields → Except String (List (String × HData))
  | .nil => .error "KeyError: inputs"
  | .cons k v rest =>
    if k == "inputs" then
      match v with
      | .obj ifs => hdInitInputs ifs
      | _ => .error "AttributeError: items"
    else hdFindInputs rest
  termination_by structural fs => fs

def hdInitInputs : JFields → Except String (List (String × HData))
  | .nil => .ok []
  | .cons k v rest =>
    match hdInit v none none with
    | .error e => .error e
    | .ok hd =>
      match hdInitInputs rest with
      | .error e => .error e
      | .ok tl => .ok ((k, hd) :: tl)
  termination_by structural fs => fs

end

/-! ## `json.loads`, restricted to the formula fragment

Formulas only ever contain objects, strings and `null`, so the parser
models `json.loads` on that fragment (numbers, arrays and booleans are
never produced by `json.dumps` of a formula).  It follows Python's
scanner: optional whitespace between tokens, strict rejection of raw
control characters inside strings, the escapes
`\" \\ \/ \b \f \n \r \t \uXXXX`, and recombination of surrogate
pairs.  (Python would accept a lone surrogate escape as a lone
surrogate character; such characters do not exist as Lean `Char`s and
never occur in `json.dumps` output, so the model rejects them.) -/

/-- JSON whitespace (`' \t\n\r'`). -/
def isWs (c : Char) : Bool :=
  c == ' ' || c == '\t' || c == '\n' || c == '\r'

/-- Skip insignificant whitespace. -/
def skipWs (l : List Char) : List Char := l.dropWhile isWs

/-- Value of one hex digit (`int(c, 16)` accepts both cases). -/
def hexVal (c : Char) : Option Nat :=
  if 48 ≤ c.toNat ∧ c.toNat ≤ 57 then some (c.toNat - 48)
  else if 97 ≤ c.toNat ∧ c.toNat ≤ 102 then some (c.toNat - 87)
  else if 65 ≤ c.toNat ∧ c.toNat ≤ 70 then some (c.toNat - 55)
  else none

/-- The single-character escapes of the JSON scanner
(`BACKSLASH` in `json.decoder`). -/
def escDecode (e : Char) : Option Char :=
  if e = '"' then some '"'
  else if e = '\\' then some '\\'
  else if e = '/' then some '/'
  else if e = 'b' then some (Char.ofNat 8)
  else if e = 'f' then some (Char.ofNat 12)
  else if e = 'n' then some '\n'
  else if e = 'r' then some '\r'
  else if e = 't' then some '\t'
  else none

/-- Value of a 4-digit hex escape payload. -/
def hexVal4 (h1 h2 h3 h4 : Char) : Option Nat :=
  match hexVal h1, hexVal h2, hexVal h3, hexVal h4 with
  | some a, some b, some c, some d => some (((a * 16 + b) * 16 + c) * 16 + d)
  | _, _, _, _ => none

/-- The `\uXXXX` payload at the head of the input, if present. -/
def hexVal4L : List Char → Option Nat
  | h1 :: h2 :: h3 :: h4 :: _ => hexVal4 h1 h2 h3 h4
  | _ => none

/-- The payload of a second `\uXXXX` escape at the head of the input
(for the low half of a surrogate pair). -/
def surrVal : List Char → Option Nat
  | b1 :: b2 :: k1 :: k2 :: k3 :: k4 :: _ =>
    if b1 = '\\' ∧ b2 = 'u' then hexVal4 k1 k2 k3 k4 else none
  | _ => none

mutual

/-- Parse the body of a string literal after the opening quote,
returning the decoded characters and the input after the closing
quote.  A raw control character is rejected (`strict=True`). -/
def parseStrBody : List Char → Option (List Char × List Char)
  | [] => none
  | c :: rest =>
    if c = '"' then some ([], rest)
    else if c = '\\' then parseEsc rest
    else if c.toNat < 32 then none
    else (parseStrBody rest).map (fun p => (c :: p.1, p.2))
  termination_by l => l.length
  decreasing_by all_goals (simp only [List.length_cons]; omega)

/-- Decode one backslash escape and continue with the string body. -/
def parseEsc : List Char → Option (List Char × List Char)
  | [] => none
  | e :: rest =>
    if e = 'u' then
      match hexVal4L rest with
      | none => none
      | some n =>
        if 55296 ≤ n ∧ n < 56320 then
          match surrVal (rest.drop 4) with
          | none => none
          | some m =>
            if 56320 ≤ m ∧ m < 57344 then
              (parseStrBody (rest.drop 10)).map (fun p =>
                (Char.ofNat (65536 + (n - 55296) * 1024 + (m - 56320)) :: p.1, p.2))
            else none
        else if 56320 ≤ n ∧ n < 57344 then none
        else (parseStrBody (rest.drop 4)).map (fun p => (Char.ofNat n :: p.1, p.2))
    else
      match escDecode e with
      | none => none
      | some d => (parseStrBody rest).map (fun p => (d :: p.1, p.2))
  termination_by l => l.length
  decreasing_by all_goals (simp only [List.length_cons, List.length_drop]; omega)

end

mutual

/-- Structural size of a value, used as parser fuel. -/
def sizeJ : JValue → Nat
  | .null => 1
  | .str _ => 1
  | .obj fs => 1 + sizeF fs
  termination_by structural v => v

/-- Structural size of a field list. -/
def sizeF : JFields → Nat
  | .nil => 1
  | .cons _ v fs => 1 + sizeJ v + sizeF fs
  termination_by structural fs => fs

end

mutual

/-- Parse one value of the fragment. -/
def parseJV : Nat → List Char → Option (JValue × List Char)
  | 0, _ => none
  | fuel + 1, cs =>
    match skipWs cs with
    | [] => none
    | c :: rest =>
      if c = 'n' then
        if rest.take 3 = ['u', 'l', 'l'] then some (.null, rest.drop 3) else none
      else if c = '"' then (parseStrBody rest).map (fun p => (.str ⟨p.1⟩, p.2))
      else if c = '{' then
        match skipWs rest with
        | [] => none
        | b :: rest1 =>
          if b = '}' then some (.obj .nil, rest1)
          else (parseMembers fuel (b :: rest1)).map (fun p => (.obj p.1, p.2))
      else none
  termination_by structural fuel _ => fuel

/-- Parse the members of a non-empty object, starting at the first
key and consuming the closing brace. -/
def parseMembers : Nat → List Char → Option (JFields × List Char)
  | 0, _ => none
  | fuel + 1, cs =>
    match skipWs cs with
    | [] => none
    | c :: rest =>
      if c = '"' then
        match parseStrBody rest with
        | none => none
        | some (k, r1) =>
          match skipWs r1 with
          | [] => none
          | c2 :: r2 =>
            if c2 = ':' then
              match parseJV fuel r2 with
              | none => none
              | some (v, r3) =>
                match skipWs r3 with
                | [] => none
                | c3 :: r4 =>
                  if c3 = ',' then
                    (parseMembers fuel r4).map (fun p => (.cons ⟨k⟩ v p.1, p.2))
                  else if c3 = '}' then some (.cons ⟨k⟩ v .nil, r4)
                  else none
            else none
      else none
  termination_by structural fuel _ => fuel

end

/-- `json.loads` on the fragment: parse one value and require only
whitespace to remain.  One unit of fuel is consumed per nesting or
member step and each such step consumes at least one input character,
so `length + 1` fuel never runs out. -/
def loads (s : String) : Option JValue :=
  match parseJV (s.data.length + 1) s.data with
  | some (v, rest) => if (skipWs rest).isEmpty then some v else none
  | none => none

/-- One step of `imported_tables` (src/cabin/db.py lines 125-139):
`json.loads` the stored formula column and resurrect it as a
`HistoricalDataset`, passing the stored `name` and `sha` columns. -/
def reconstruct (row : Row) : Except String HData :=
  match loads row.formula with
  | none => .error "json.loads failed"
  | some f => hdInit f (some row.name) (some row.sha)

/-! ## Shell-glob matching (`fnmatch.fnmatch`, used by `glob_datasets`)

`fnmatch` on POSIX compares case-sensitively; the pattern language is
`*` (any sequence), `?` (any character), `[seq]`/`[!seq]` (character
classes with ranges; a `]` right after the opening bracket or the
negation is literal; an unterminated class makes `[` literal).  The
recursion is guarded by a fuel argument; every step consumes at least
one pattern or subject character, so `pattern.length + subject.length
+ 1` is always enough fuel. -/

/-- Character-class membership with `a-z` ranges (a leading or
trailing `-` is literal). -/
def classMatch : List Char → Char → Bool
  | [], _ => false
  | a :: '-' :: b :: rest, c =>
    (a.toNat ≤ c.toNat && c.toNat ≤ b.toNat) || classMatch rest c
  | a :: rest, c => a == c || classMatch rest c

/-- Split a bracket expression after `[`: negation flag, class body,
remaining pattern; `none` when the class is unterminated. -/
def classSplit (ps : List Char) : Option (Bool × List Char × List Char) :=
  let neg := match ps with
    | '!' :: _ => true
    | _ => false
  let ps1 := if neg then ps.tail else ps
  match ps1 with
  | ']' :: rest => (scanClose rest).map (fun p => (neg, ']' :: p.1, p.2))
  | _ => (scanClose ps1).map (fun p => (neg, p.1, p.2))
where
  scanClose : List Char → Option (List Char × List Char)
    | [] => none
    | ']' :: rest => some ([], rest)
    | c :: rest => (scanClose rest).map (fun p => (c :: p.1, p.2))

/-- The glob matcher proper, on fuel. -/
def globMatchAux : Nat → List Char → List Char → Bool
  | 0, _, _ => false
  | _ + 1, [], s => s.isEmpty
  | fuel + 1, '*' :: ps, s =>
    globMatchAux fuel ps s ||
      (match s with
       | [] => false
       | _ :: s' => globMatchAux fuel ('*' :: ps) s')
  | fuel + 1, '?' :: ps, s =>
    match s with
    | [] => false
    | _ :: s' => globMatchAux fuel ps s'
  | fuel + 1, '[' :: ps, s =>
    match classSplit ps with
    | some (neg, body, rest) =>
      match s with
      | [] => false
      | c :: s' => (if neg then !(classMatch body c) else classMatch body c) &&
          globMatchAux fuel rest s'
    | none =>
      match s with
      | [] => false
      | c :: s' => ('[' == c) && globMatchAux fuel ps s'
  | fuel + 1, p :: ps, s =>
    match s with
    | [] => false
    | c :: s' => (p == c) && globMatchAux fuel ps s'

/-- `fnmatch.fnmatch(name, pattern)` (case-sensitive POSIX behaviour). -/
def fnmatchB (name pattern : String) : Bool :=
  globMatchAux (pattern.data.length + name.data.length + 1) pattern.data name.data

/-! ## The `import` command (src/cabin/app.py)

`glob_datasets`/`all_table_datasets` select classes from the registry
values; `ImportCommand.run` resolves the selection, returns `1` (with
an error log and no production) when it is empty, and otherwise
instantiates and `produce_recursive`s each class in order, returning
`None`.  `BiodbError`s raised for bad flag combinations are `.error`s;
an exception escaping a build is propagated (`.error` as well, since
`run` has no handler). -/

structure ImportArgs where
  all : Bool
  tag : Option String
  datasets : List String
  dryRun : Bool

/-- `all_table_datasets` (src/cabin/app.py lines 17-24). -/
def allTableDatasets (regVals : List DClass) (tag : Option String) : List DClass :=
  regVals.filter (fun c =>
    c.isTable && (match tag with
      | none => true
      | some t => c.tags.contains t))

/-- `glob_datasets` (src/cabin/app.py lines 27-35). -/
def globDatasets (glob : String) (tablesOnly : Bool) (regVals : List DClass) :
    List DClass :=
  regVals.filter (fun c => (!tablesOnly || c.isTable) && fnmatchB c.cname glob)

/-- The production loop at the end of `ImportCommand.run`: instantiate
each selected class and `produce_recursive` it; a raised exception
propagates out of `run`. -/
def importLoop (iid : String) (dry : Bool) :
    List DClass → DBState → List Ev → Except String (Option Nat × DBState × List Ev)
  | [], s, tr => .ok (none, s, tr)
  | c :: rest, s, tr =>
    match produceRec iid dry c s with
    | (.ok s1, tr1) => importLoop iid dry rest s1 (tr ++ tr1)
    | (.error _, _) => .error "production failed"

/-- `ImportCommand.run` (src/cabin/app.py lines 246-267). -/
def importRun (iid : String) (args : ImportArgs) (regVals : List DClass)
    (s : DBState) : Except String (Option Nat × DBState × List Ev) :=
  if args.all then
    importSelected iid args.dryRun (allTableDatasets regVals args.tag) s
  else if args.tag.isSome then
    .error "--tag is only valid with --all"
  else if args.datasets.isEmpty then
    .error "either specify a dataset or --all"
  else
    importSelected iid args.dryRun
      (args.datasets.flatMap (fun g => globDatasets g false regVals)) s
where
  importSelected (iid : String) (dry : Bool) (classes : List DClass) (s : DBState) :
      Except String (Option Nat × DBState × List Ev) :=
    if classes.isEmpty then .ok (some 1, s, [])
    else importLoop iid dry classes s []

/-! ## Roundtrip: the parser inverts `json.dumps`

`parseJV (dumpV v ++ rest) = some (v, rest)`, hence `json.dumps` is
injective on values and `json.loads (json.dumps v) = v`. -/

theorem hexVal_hexDigit : ∀ d : Nat, d < 16 → hexVal (hexDigit d) = some d := by decide

theorem hexVal4_hex4 (n : Nat) (h : n < 65536) :
    hexVal4 (hexDigit (n / 4096 % 16)) (hexDigit (n / 256 % 16))
      (hexDigit (n / 16 % 16)) (hexDigit (n % 16)) = some n := by
  unfold hexVal4
  have e : ((n / 4096 % 16 * 16 + n / 256 % 16) * 16 + n / 16 % 16) * 16 + n % 16 = n := by
    omega
  rw [hexVal_hexDigit _ (Nat.mod_lt _ (by norm_num)),
    hexVal_hexDigit _ (Nat.mod_lt _ (by norm_num)),
    hexVal_hexDigit _ (Nat.mod_lt _ (by norm_num)),
    hexVal_hexDigit _ (Nat.mod_lt _ (by norm_num))]
  simp only [e]

/-- The validity bounds of a `Char`'s code point. -/
theorem char_toNat_valid (c : Char) :
    c.toNat < 55296 ∨ (57343 < c.toNat ∧ c.toNat < 1114112) := by
  have h := c.valid
  rcases h with h | h
  · left
    exact h
  · right
    exact h

theorem parseStrBody_quote (l : List Char) : parseStrBody ('"' :: l) = some ([], l) := by
  rw [parseStrBody]
  simp

theorem parseStrBody_bs (l : List Char) : parseStrBody ('\\' :: l) = parseEsc l := by
  rw [parseStrBody]
  simp

theorem parseStrBody_lit (c : Char) (l : List Char) (h1 : c ≠ '"') (h2 : c ≠ '\\')
    (h3 : ¬c.toNat < 32) :
    parseStrBody (c :: l) = (parseStrBody l).map (fun p => (c :: p.1, p.2)) := by
  rw [parseStrBody]
  rw [if_neg h1, if_neg h2, if_neg h3]

theorem hexVal4L_cons (a b c d : Char) (t : List Char) :
    hexVal4L (a :: b :: c :: d :: t) = hexVal4 a b c d := rfl

theorem surrVal_cons (k1 k2 k3 k4 : Char) (t : List Char) :
    surrVal ('\\' :: 'u' :: k1 :: k2 :: k3 :: k4 :: t) = hexVal4 k1 k2 k3 k4 := rfl

theorem drop_four (a b c d : Char) (l : List Char) :
    List.drop 4 (a :: b :: c :: d :: l) = l := rfl

theorem drop_ten (a b c d e f g h i j : Char) (l : List Char) :
    List.drop 10 (a :: b :: c :: d :: e :: f :: g :: h :: i :: j :: l) = l := rfl

theorem parseStrBody_escapeChar (c : Char) (tail : List Char) :
    parseStrBody (escapeChar c ++ tail) =
      (parseStrBody tail).map (fun p => (c :: p.1, p.2)) := by
  by_cases h1 : c = '"'
  · subst h1; simp [escapeChar, parseStrBody_bs, parseEsc, escDecode]
  · by_cases h2 : c = '\\'
    · subst h2; simp [escapeChar, parseStrBody_bs, parseEsc, escDecode]
    · by_cases h3 : c = '\n'
      · subst h3; simp [escapeChar, parseStrBody_bs, parseEsc, escDecode]
      · by_cases h4 : c = '\r'
        · subst h4; simp [escapeChar, parseStrBody_bs, parseEsc, escDecode]
        · by_cases h5 : c = '\t'
          · subst h5; simp [escapeChar, parseStrBody_bs, parseEsc, escDecode]
          · by_cases h6 : c = Char.ofNat 8
            · subst h6; simp [escapeChar, parseStrBody_bs, parseEsc, escDecode]
            · by_cases h7 : c = Char.ofNat 12
              · subst h7; simp [escapeChar, parseStrBody_bs, parseEsc, escDecode]
              · by_cases h8 : 32 ≤ c.toNat ∧ c.toNat ≤ 126
                · -- literal character
                  simp only [escapeChar, if_neg h1, if_neg h2, if_neg h3, if_neg h4,
                    if_neg h5, if_neg h6, if_neg h7, if_pos h8, List.singleton_append]
                  exact parseStrBody_lit c tail h1 h2 (by omega)
                · by_cases h9 : c.toNat < 65536
                  · -- BMP \uXXXX escape
                    have hv := char_toNat_valid c
                    have hns1 : ¬(55296 ≤ c.toNat ∧ c.toNat < 56320) := by omega
                    have hns2 : ¬(56320 ≤ c.toNat ∧ c.toNat < 57344) := by omega
                    simp only [escapeChar, if_neg h1, if_neg h2, if_neg h3, if_neg h4,
                      if_neg h5, if_neg h6, if_neg h7, if_neg h8, if_pos h9, hex4,
                      List.cons_append, List.nil_append]
                    rw [parseStrBody_bs, parseEsc]
                    rw [hexVal4L_cons, hexVal4_hex4 _ h9, drop_four]
                    simp [hns1, hns2, Char.ofNat_toNat]
                  · -- astral character: surrogate pair
                    have hv := char_toNat_valid c
                    have h10 : c.toNat - 65536 < 1048576 := by omega
                    have hcomb : 65536 + (55296 + (c.toNat - 65536) / 1024 - 55296) * 1024 +
                        (56320 + (c.toNat - 65536) % 1024 - 56320) = c.toNat := by omega
                    have hhi : 55296 ≤ 55296 + (c.toNat - 65536) / 1024 ∧
                        55296 + (c.toNat - 65536) / 1024 < 56320 := by omega
                    have hlo : 56320 ≤ 56320 + (c.toNat - 65536) % 1024 ∧
                        56320 + (c.toNat - 65536) % 1024 < 57344 := by omega
                    simp only [escapeChar, if_neg h1, if_neg h2, if_neg h3, if_neg h4,
                      if_neg h5, if_neg h6, if_neg h7, if_neg h8, if_neg h9, hex4,
                      List.cons_append, List.append_assoc, List.nil_append]
                    rw [parseStrBody_bs, parseEsc]
                    rw [hexVal4L_cons, hexVal4_hex4 _ (by omega)]
                    rw [drop_four, drop_ten]
                    rw [surrVal_cons, hexVal4_hex4 _ (by omega)]
                    have hfin2 : 65536 + (c.toNat - 65536) / 1024 * 1024 +
                        (c.toNat - 65536) % 1024 = c.toNat := by omega
                    simp [hhi, hlo, hcomb, hfin2, Char.ofNat_toNat]

theorem parseStrBody_enc (l : List Char) (rest : List Char) :
    parseStrBody (l.flatMap escapeChar ++ '"' :: rest) = some (l, rest) := by
  induction l with
  | nil =>
    rw [List.flatMap_nil, List.nil_append]
    exact parseStrBody_quote rest
  | cons c l ih =>
    rw [List.flatMap_cons, List.append_assoc, parseStrBody_escapeChar, ih]
    rfl

theorem skipWs_cons (c : Char) (l : List Char) (h : isWs c = false) :
    skipWs (c :: l) = c :: l := by
  simp [skipWs, List.dropWhile_cons, h]

theorem skipWs_space (l : List Char) : skipWs (' ' :: l) = skipWs l := by
  simp [skipWs, List.dropWhile_cons, isWs]

theorem parseJV_space (fuel : Nat) (l : List Char) :
    parseJV fuel (' ' :: l) = parseJV fuel l := by
  cases fuel with
  | zero => rfl
  | succ n => rw [parseJV, parseJV, skipWs_space]

theorem parseMembers_space (fuel : Nat) (l : List Char) :
    parseMembers fuel (' ' :: l) = parseMembers fuel l := by
  cases fuel with
  | zero => rfl
  | succ n => rw [parseMembers, parseMembers, skipWs_space]

theorem sizeJ_pos (v : JValue) : 1 ≤ sizeJ v := by
  cases v with
  | null => simp [sizeJ]
  | str s => simp [sizeJ]
  | obj fs => simp [sizeJ]

mutual

theorem sizeJ_le_len : ∀ v : JValue, sizeJ v ≤ (dumpV v).length
  | .null => by simp [sizeJ, dumpV]
  | .str s => by
    simp only [sizeJ, dumpV, encodeJString, List.length_cons, List.length_append]
    omega
  | .obj .nil => by simp [sizeJ, sizeF, dumpV]
  | .obj (.cons k v fs) => by
    have h1 := sizeJ_le_len v
    have h2 := sizeF_le_len fs
    simp only [sizeJ, sizeF, dumpV, encodeJString, List.length_cons, List.length_append]
    omega
  termination_by structural v => v

theorem sizeF_le_len : ∀ fs : JFields, sizeF fs ≤ (dumpTail fs).length + 1
  | .nil => by simp [sizeF, dumpTail]
  | .cons k v fs => by
    have h1 := sizeJ_le_len v
    have h2 := sizeF_le_len fs
    simp only [sizeF, dumpTail, encodeJString, List.length_cons, List.length_append]
    omega
  termination_by structural fs => fs

end

theorem sizeF_cons_pos (fs : JFields) : 1 ≤ sizeF fs := by
  cases fs with
  | nil => simp [sizeF]
  | cons k v f =>
    simp only [sizeF]
    have := sizeJ_pos v
    omega

theorem pm_succ (k : String) (v : JValue) (fs : JFields) (fuel : Nat) (rest : List Char)
    (hv : parseJV fuel (dumpV v ++ (dumpTail fs ++ '}' :: rest)) =
      some (v, dumpTail fs ++ '}' :: rest)) :
    parseMembers (fuel + 1) ('"' :: (k.data.flatMap escapeChar ++
      '"' :: ':' :: ' ' :: (dumpV v ++ (dumpTail fs ++ '}' :: rest)))) =
      (match skipWs (dumpTail fs ++ '}' :: rest) with
        | [] => none
        | c3 :: r4 =>
          if c3 = ',' then (parseMembers fuel r4).map
            (fun p => (JFields.cons ⟨k.data⟩ v p.1, p.2))
          else if c3 = '}' then some (JFields.cons ⟨k.data⟩ v JFields.nil, r4)
          else none) := by
  rw [parseMembers, skipWs_cons _ _ (by decide)]
  show (if ('"' : Char) = '"' then _ else none) = _
  rw [if_pos rfl, parseStrBody_enc]
  show (match skipWs (':' :: ' ' :: (dumpV v ++ (dumpTail fs ++ '}' :: rest))) with
    | [] => none
    | c2 :: r2 => _) = _
  rw [skipWs_cons _ _ (by decide)]
  show (if (':' : Char) = ':' then _ else none) = _
  rw [if_pos rfl, parseJV_space, hv]

mutual

theorem parseJV_dumpV : ∀ (v : JValue) (fuel : Nat) (rest : List Char),
    sizeJ v ≤ fuel → parseJV fuel (dumpV v ++ rest) = some (v, rest)
  | v, 0, rest => by
    intro h
    exact absurd h (by have := sizeJ_pos v; omega)
  | .null, fuel + 1, rest => by
    intro h
    show parseJV (fuel + 1) ('n' :: 'u' :: 'l' :: 'l' :: rest) = _
    rw [parseJV, skipWs_cons _ _ (by decide)]
    simp
  | .str s, fuel + 1, rest => by
    intro h
    show parseJV (fuel + 1) ('"' :: ((s.data.flatMap escapeChar ++ ['"']) ++ rest)) = _
    rw [parseJV, skipWs_cons _ _ (by decide)]
    rw [List.append_assoc, List.singleton_append]
    simp [parseStrBody_enc]
  | .obj .nil, fuel + 1, rest => by
    intro h
    show parseJV (fuel + 1) ('{' :: '}' :: rest) = _
    rw [parseJV, skipWs_cons _ _ (by decide)]
    have hb : skipWs ('}' :: rest) = '}' :: rest := skipWs_cons _ _ (by decide)
    simp [hb]
  | .obj (.cons k v fs), fuel + 1, rest => by
    intro h
    have hszF : sizeF (.cons k v fs) ≤ fuel + 1 := by
      simp only [sizeJ] at h
      omega
    have hm := parseMembers_dumpF k v fs fuel rest hszF
    show parseJV (fuel + 1)
      ('{' :: (((encodeJString k ++ ':' :: ' ' :: dumpV v) ++ dumpTail fs) ++ ['}']) ++ rest) = _
    rw [parseJV, List.cons_append, skipWs_cons _ _ (by decide)]
    show (if ('{' : Char) = 'n' then _ else _) = _
    rw [if_neg (by decide), if_neg (by decide), if_pos rfl]
    rw [show (((encodeJString k ++ ':' :: ' ' :: dumpV v) ++ dumpTail fs) ++ ['}']) ++ rest =
        '"' :: (k.data.flatMap escapeChar ++
          '"' :: ':' :: ' ' :: (dumpV v ++ (dumpTail fs ++ '}' :: rest))) by
      simp [encodeJString, List.append_assoc]]
    rw [skipWs_cons _ _ (by decide)]
    show (if ('"' : Char) = '}' then _ else _) = _
    rw [if_neg (by decide), hm]
    rfl
  termination_by v _ _ => sizeOf v
  decreasing_by
    simp
    omega

theorem parseMembers_dumpF : ∀ (k : String) (v : JValue) (fs : JFields) (fuel : Nat)
    (rest : List Char), sizeF (.cons k v fs) ≤ fuel + 1 →
    parseMembers fuel ('"' :: (k.data.flatMap escapeChar ++
      '"' :: ':' :: ' ' :: (dumpV v ++ (dumpTail fs ++ '}' :: rest)))) =
      some (.cons k v fs, rest)
  | k, v, fs, 0, rest => by
    intro h
    exact absurd h (by
      have h1 := sizeJ_pos v
      have h2 := sizeF_cons_pos fs
      simp only [sizeF] at h ⊢
      omega)
  | k, v, fs, fuel + 1, rest => by
    intro h
    have hsz : sizeJ v ≤ fuel := by
      have h2 := sizeF_cons_pos fs
      simp only [sizeF] at h
      omega
    rw [pm_succ k v fs fuel rest (parseJV_dumpV v fuel _ hsz)]
    cases fs with
    | nil =>
      show (match skipWs ('}' :: rest) with
        | [] => none
        | c3 :: r4 =>
          if c3 = ',' then (parseMembers fuel r4).map
            (fun (p : JFields × List Char) => (JFields.cons ⟨k.data⟩ v p.1, p.2))
          else if c3 = '}' then some (JFields.cons ⟨k.data⟩ v JFields.nil, r4)
          else none) = _
      rw [skipWs_cons _ _ (by decide)]
      show (if ('}' : Char) = ',' then _ else _) = _
      rw [if_neg (by decide), if_pos rfl]
    | cons k2 v2 fs2 =>
      show (match skipWs (',' :: ' ' :: ((encodeJString k2 ++ ':' :: ' ' :: dumpV v2) ++
          dumpTail fs2) ++ '}' :: rest) with
        | [] => none
        | c3 :: r4 =>
          if c3 = ',' then (parseMembers fuel r4).map
            (fun (p : JFields × List Char) => (JFields.cons ⟨k.data⟩ v p.1, p.2))
          else if c3 = '}' then some (JFields.cons ⟨k.data⟩ v JFields.nil, r4)
          else none) = _
      rw [List.cons_append, List.cons_append, skipWs_cons _ _ (by decide)]
      show (if (',' : Char) = ',' then _ else _) = _
      rw [if_pos rfl, parseMembers_space]
      rw [show ((encodeJString k2 ++ ':' :: ' ' :: dumpV v2) ++ dumpTail fs2) ++ '}' :: rest =
          '"' :: (k2.data.flatMap escapeChar ++
            '"' :: ':' :: ' ' :: (dumpV v2 ++ (dumpTail fs2 ++ '}' :: rest))) by
        simp [encodeJString, List.append_assoc]]
      rw [parseMembers_dumpF k2 v2 fs2 fuel rest (by
        have := sizeJ_pos v
        simp only [sizeF] at h ⊢
        omega)]
      rfl
  termination_by _ v fs _ _ => 1 + sizeOf v + sizeOf fs
  decreasing_by
    all_goals first
    | (simp; omega)
    | simp

end

/-- `json.loads (json.dumps v)` recovers `v`. -/
theorem loads_dumps (v : JValue) : loads (dumps v) = some v := by
  have h := parseJV_dumpV v ((dumpV v).length + 1) [] (by
    have := sizeJ_le_len v
    omega)
  rw [List.append_nil] at h
  show (match parseJV ((dumpV v).length + 1) (dumpV v) with
    | some (w, r) => if (skipWs r).isEmpty then some w else none
    | none => none) = some v
  rw [h]
  rfl

/-- `json.dumps` is injective on values. -/
theorem dumpV_injective {a b : JValue} (h : dumpV a = dumpV b) : a = b := by
  have ha := parseJV_dumpV a (sizeJ a + sizeJ b) [] (by have := sizeJ_pos b; omega)
  have hb := parseJV_dumpV b (sizeJ a + sizeJ b) [] (by have := sizeJ_pos a; omega)
  rw [h, hb] at ha
  cases ha
  rfl

/-- `json.dumps` is injective, at the string level. -/
theorem dumps_inj (a b : JValue) : dumps a = dumps b ↔ a = b := by
  constructor
  · intro h
    apply dumpV_injective
    have : (dumps a).data = (dumps b).data := by rw [h]
    exact this
  · intro h
    rw [h]

/-! ## Supporting lemmas about formulas -/

/-- The dependency list as an ordinary list. -/
def DList.toList : DList → List DClass
  | .nil => []
  | .cons c rest => c :: DList.toList rest

theorem formulaOf_eq (c : DClass) :
    formulaOf c = .obj (.cons "type" (.str c.cname) (.cons "version" (jOfVersion c.version)
      (.cons "inputs" (.obj (inputsOf c.depends)) .nil))) := by
  cases c
  rfl

theorem cname_of_formulaOf_eq {c d : DClass} (h : formulaOf c = formulaOf d) :
    c.cname = d.cname := by
  rw [formulaOf_eq c, formulaOf_eq d] at h
  simp only [JValue.obj.injEq, JFields.cons.injEq, JValue.str.injEq,
    true_and, and_true] at h
  exact h.1

theorem inputsOf_eq_of_map : ∀ d e : DList,
    d.toList.map formulaOf = e.toList.map formulaOf → inputsOf d = inputsOf e
  | .nil, .nil, _ => rfl
  | .nil, .cons _ _, h => by simp [DList.toList] at h
  | .cons _ _, .nil, h => by simp [DList.toList] at h
  | .cons c d, .cons c' e, h => by
    simp only [DList.toList, List.map_cons, List.cons.injEq] at h
    obtain ⟨h1, h2⟩ := h
    simp only [inputsOf]
    rw [cname_of_formulaOf_eq h1, h1, inputsOf_eq_of_map d e h2]

theorem jOfVersion_inj {v w : Option String} (h : jOfVersion v = jOfVersion w) : v = w := by
  cases v with
  | none =>
    cases w with
    | none => rfl
    | some t => simp [jOfVersion] at h
  | some s =>
    cases w with
    | none => simp [jOfVersion] at h
    | some t =>
      simp only [jOfVersion, JValue.str.injEq] at h
      rw [h]

/-! ## The claims -/

set_option maxRecDepth 8192

/-- C1, counterexample: the serialization used for fingerprinting is
not order-independent.  Two dataset classes of the same name and
version whose dependency lists hold the same two classes in opposite
orders have the same key-to-subformula bindings (as a set), yet their
`formula_json` bytes and their signatures differ, because `json.dumps`
keeps dictionary insertion order and `Dataset.__init__` inserts in
`depends` declaration order. -/
theorem C1_counterexample :
    (DClass.mk "T" (some "1") true [] false false false
        (.cons (.mk "A" (some "1") true [] false false false .nil)
          (.cons (.mk "B" (some "2") true [] false false false .nil) .nil))).cname =
      (DClass.mk "T" (some "1") true [] false false false
        (.cons (.mk "B" (some "2") true [] false false false .nil)
          (.cons (.mk "A" (some "1") true [] false false false .nil) .nil))).cname ∧
    (DClass.mk "T" (some "1") true [] false false false
        (.cons (.mk "A" (some "1") true [] false false false .nil)
          (.cons (.mk "B" (some "2") true [] false false false .nil) .nil))).version =
      (DClass.mk "T" (some "1") true [] false false false
        (.cons (.mk "B" (some "2") true [] false false false .nil)
          (.cons (.mk "A" (some "1") true [] false false false .nil) .nil))).version ∧
    (inputsOf (DClass.mk "T" (some "1") true [] false false false
        (.cons (.mk "A" (some "1") true [] false false false .nil)
          (.cons (.mk "B" (some "2") true [] false false false .nil) .nil))).depends).toList.Perm
      (inputsOf (DClass.mk "T" (some "1") true [] false false false
        (.cons (.mk "B" (some "2") true [] false false false .nil)
          (.cons (.mk "A" (some "1") true [] false false false .nil) .nil))).depends).toList ∧
    formulaJson (DClass.mk "T" (some "1") true [] false false false
        (.cons (.mk "A" (some "1") true [] false false false .nil)
          (.cons (.mk "B" (some "2") true [] false false false .nil) .nil))) ≠
      formulaJson (DClass.mk "T" (some "1") true [] false false false
        (.cons (.mk "B" (some "2") true [] false false false .nil)
          (.cons (.mk "A" (some "1") true [] false false false .nil) .nil))) ∧
    formulaSha (DClass.mk "T" (some "1") true [] false false false
        (.cons (.mk "A" (some "1") true [] false false false .nil)
          (.cons (.mk "B" (some "2") true [] false false false .nil) .nil))) ≠
      formulaSha (DClass.mk "T" (some "1") true [] false false false
        (.cons (.mk "B" (some "2") true [] false false false .nil)
          (.cons (.mk "A" (some "1") true [] false false false .nil) .nil))) := by
  refine ⟨rfl, rfl, ?_, by decide, by decide⟩
  decide

/-- C1, amended: the serialization is deterministic but
order-sensitive.  The `formula_json` bytes of two dataset instances
coincide exactly when their formulas coincide as ordered structures
(same type, same version, and the same key-to-subformula bindings in
the same declaration order); in particular equal formulas give equal
bytes, while reordering the dependency keys changes the bytes. -/
theorem C1_amended (a b : DClass) :
    formulaJson a = formulaJson b ↔ formulaOf a = formulaOf b := by
  unfold formulaJson
  exact dumps_inj _ _

/-- C6: determinism of signatures: dataset instances of the same type
name with identical version and pairwise-identical dependency formulas
have equal signatures; the signature is a pure function of these
inputs. -/
theorem C6_determinism (a b : DClass) (ht : a.cname = b.cname)
    (hv : a.version = b.version)
    (hd : a.depends.toList.map formulaOf = b.depends.toList.map formulaOf) :
    formulaSha a = formulaSha b := by
  have hf : formulaOf a = formulaOf b := by
    rw [formulaOf_eq a, formulaOf_eq b, ht, hv, inputsOf_eq_of_map _ _ hd]
  unfold formulaSha formulaJson
  rw [hf]

/-- C6, witness: two structurally different classes (different tags
and table flags) with the same name, version and dependencies have the
same signature. -/
theorem C6_determinism_witness :
    formulaSha (DClass.mk "X" (some "1") true ["a"] false false false .nil) =
      formulaSha (DClass.mk "X" (some "1") false [] false true true .nil) :=
  C6_determinism _ _ rfl rfl rfl

/-- C8, counterexample: constructing an instance of a dataset type
with a missing (`None`) version does not fail; `Dataset.__init__` runs
no validation, and the resulting formula embeds `null` as the
version. -/
theorem C8_counterexample :
    datasetInit (DClass.mk "N" none false [] false false false .nil) =
      .ok (.obj (.cons "type" (.str "N") (.cons "version" .null
        (.cons "inputs" (.obj .nil) .nil)))) := rfl

/-- C8, amended: a type with a missing (`None`) version is not
rejected at construction time — `Dataset.__init__` succeeds and embeds
`null` — but such a type is excluded from the registry built by
`import_dataset_classes`, so it can never be resolved or imported
through the command-line front end. -/
theorem C8_amended (cs : List DClass) (c : DClass) (hv : c.version = none) :
    datasetInit c = .ok (formulaOf c) ∧ ∀ p ∈ registryOf cs, p.2 ≠ c := by
  refine ⟨rfl, ?_⟩
  intro p hp hrefl
  simp only [registryOf, List.mem_map, List.mem_filter] at hp
  obtain ⟨d, ⟨_, hd⟩, hpd⟩ := hp
  rw [← hpd] at hrefl
  simp only at hrefl
  rw [hrefl, hv] at hd
  simp [versionTruthy] at hd

/-- C8, witness: the amended claim at a concrete registry holding a
version-less class. -/
theorem C8_amended_witness :
    datasetInit (DClass.mk "N" none false [] false false false .nil) =
      .ok (formulaOf (DClass.mk "N" none false [] false false false .nil)) ∧
    ∀ p ∈ registryOf [DClass.mk "N" none false [] false false false .nil,
      DClass.mk "M" (some "1") true [] false false false .nil],
      p.2 ≠ DClass.mk "N" none false [] false false false .nil :=
  C8_amended _ _ rfl

/-- C5: staleness classification: for a stored formula whose `type`
field is a string, `is_latest` answers `false` when that name is
missing from the current registry, and otherwise answers `true`
exactly when the signature obtained by instantiating the registry's
class equals the (recomputed) signature of the stored formula. -/
theorem C5_staleness (reg : List (String × DClass)) (f : JValue) (t : String)
    (ht : jGet f "type" = some (.str t)) :
    (reg.lookup t = none → isLatest reg f = false) ∧
    ∀ cls, reg.lookup t = some cls →
      (isLatest reg f = true ↔ formulaSha cls = calculateSha (dumps f)) := by
  constructor
  · intro hn
    unfold isLatest
    rw [ht]
    show (match List.lookup t reg with
      | none => false
      | some cls => formulaSha cls == calculateSha (dumps f)) = false
    rw [hn]
  · intro cls hcls
    unfold isLatest
    rw [ht]
    show (match List.lookup t reg with
      | none => false
      | some cls => formulaSha cls == calculateSha (dumps f)) = true ↔ _
    rw [hcls]
    exact beq_iff_eq

/-- C5, witness: a registry with one class; a stored formula of an
unknown type is never latest, and the class's own stored formula is
latest. -/
theorem C5_staleness_witness :
    isLatest [("X", DClass.mk "X" (some "1") true [] false false false .nil)]
      (.obj (.cons "type" (.str "Gone") (.cons "version" (.str "1")
        (.cons "inputs" (.obj .nil) .nil)))) = false ∧
    isLatest [("X", DClass.mk "X" (some "1") true [] false false false .nil)]
      (formulaOf (DClass.mk "X" (some "1") true [] false false false .nil)) = true := by
  constructor
  · exact (C5_staleness [("X", DClass.mk "X" (some "1") true [] false false false .nil)]
      (.obj (.cons "type" (.str "Gone") (.cons "version" (.str "1")
        (.cons "inputs" (.obj .nil) .nil)))) "Gone" (by decide)).1 rfl
  · exact ((C5_staleness [("X", DClass.mk "X" (some "1") true [] false false false .nil)]
      (formulaOf (DClass.mk "X" (some "1") true [] false false false .nil)) "X"
      (by decide)).2
      (DClass.mk "X" (some "1") true [] false false false .nil) rfl).mpr rfl

/-- Replacing a dataset class's `version` attribute, keeping everything
else (the model of an author bumping a type's version string). -/
def setVersion (c : DClass) (v : Option String) : DClass :=
  match c with
  | .mk n _ tb tg imf hc cf d => .mk n v tb tg imf hc cf d

mutual

/-- Whether the class `x` occurs in `c`'s dependency tree (including
`c` itself). -/
def occursIn (x : DClass) : DClass → Bool
  | .mk n v tb tg imf hc cf deps =>
    DClass.beq (.mk n v tb tg imf hc cf deps) x || occursList x deps
  termination_by structural c => c

/-- Whether the class `x` occurs in some tree of a dependency list. -/
def occursList (x : DClass) : DList → Bool
  | .nil => false
  | .cons c rest => occursIn x c || occursList x rest
  termination_by structural d => d

end

mutual

/-- Replace every occurrence of the class `x` by `y` in a dependency
tree (the model of redefining the type `x` globally). -/
def substC (x y : DClass) : DClass → DClass
  | .mk n v tb tg imf hc cf deps =>
    if DClass.beq (.mk n v tb tg imf hc cf deps) x then y
    else .mk n v tb tg imf hc cf (substL x y deps)
  termination_by structural c => c

/-- `substC` mapped over a dependency list. -/
def substL (x y : DClass) : DList → DList
  | .nil => .nil
  | .cons c rest => .cons (substC x y c) (substL x y rest)
  termination_by structural d => d

end

mutual

theorem substC_of_not_occurs (x y : DClass) : ∀ c : DClass,
    occursIn x c = false → substC x y c = c
  | .mk n v tb tg imf hc cf deps => by
    intro h
    simp only [occursIn, Bool.or_eq_false_iff] at h
    simp [substC, h.1, substL_of_not_occurs x y deps h.2]
  termination_by structural c => c

theorem substL_of_not_occurs (x y : DClass) : ∀ d : DList,
    occursList x d = false → substL x y d = d
  | .nil => by intro h; rfl
  | .cons c rest => by
    intro h
    simp only [occursList, Bool.or_eq_false_iff] at h
    simp only [substL]
    rw [substC_of_not_occurs x y c h.1, substL_of_not_occurs x y rest h.2]
  termination_by structural d => d

end

mutual

theorem formulaOf_substC (x y : DClass) (hy : formulaOf y ≠ formulaOf x) :
    ∀ c : DClass, occursIn x c = true → formulaOf (substC x y c) ≠ formulaOf c
  | .mk n v tb tg imf hc cf deps => by
    intro hocc
    simp only [occursIn, Bool.or_eq_true] at hocc
    by_cases hx : DClass.beq (.mk n v tb tg imf hc cf deps) x = true
    · have hcx : DClass.mk n v tb tg imf hc cf deps = x := (DClass.beqc_iff _ _).mp hx
      simp only [substC, hx, if_true]
      rw [hcx]
      exact hy
    · have hdeps : occursList x deps = true := by
        rcases hocc with h | h
        · exact absurd h hx
        · exact h
      simp only [substC, hx, if_false]
      have hne := inputsOf_substL x y hy deps hdeps
      intro hcontra
      rw [formulaOf_eq, formulaOf_eq] at hcontra
      simp only [JValue.obj.injEq, JFields.cons.injEq, true_and, and_true] at hcontra
      exact hne hcontra.2.2
  termination_by structural c => c

theorem inputsOf_substL (x y : DClass) (hy : formulaOf y ≠ formulaOf x) :
    ∀ d : DList, occursList x d = true → inputsOf (substL x y d) ≠ inputsOf d
  | .nil => by
    intro h
    simp [occursList] at h
  | .cons c rest => by
    intro hocc
    simp only [occursList, Bool.or_eq_true] at hocc
    simp only [substL, inputsOf]
    by_cases hc : occursIn x c = true
    · have hne := formulaOf_substC x y hy c hc
      intro hcontra
      injection hcontra with _ h2 _
      exact hne h2
    · have hrest : occursList x rest = true := by
        rcases hocc with h | h
        · exact absurd h hc
        · exact h
      rw [substC_of_not_occurs x y c (by
        cases hcb : occursIn x c
        · rfl
        · exact absurd hcb hc)]
      have hne := inputsOf_substL x y hy rest hrest
      intro hcontra
      injection hcontra with _ _ h3
      exact hne h3
  termination_by structural d => d

end

/-- The version slot determines part of the formula: `setVersion` with
a different version gives a different formula. -/
theorem formulaOf_setVersion_ne (x : DClass) (v' : Option String)
    (hv : x.version ≠ v') : formulaOf (setVersion x v') ≠ formulaOf x := by
  cases x with
  | mk n v tb tg imf hc cf deps =>
    simp only [setVersion]
    rw [formulaOf_eq, formulaOf_eq]
    intro h
    simp only [JValue.obj.injEq, JFields.cons.injEq, true_and, and_true] at h
    exact hv (jOfVersion_inj h.2.1).symm

/-- C7, counterexample: changing a type's version string does not
always change the 8-hex-character signature: the leaf type `Leaf` has
the same `calculate_sha` fingerprint at version `736b` and at version
`d6c8` (a collision of the truncated SHA-256). -/
theorem C7_counterexample :
    (DClass.mk "Leaf" (some "736b") true [] false false false .nil).version ≠
      (setVersion (DClass.mk "Leaf" (some "736b") true [] false false false .nil)
        (some "d6c8")).version ∧
    formulaSha (DClass.mk "Leaf" (some "736b") true [] false false false .nil) =
      formulaSha (setVersion (DClass.mk "Leaf" (some "736b") true [] false false false .nil)
        (some "d6c8")) := by
  exact ⟨by decide, by decide⟩

/-- C7, amended: changing a type's version string, or swapping it
(anywhere in a dependency tree) for an instance with a different
serialized formula, changes the serialized formula (`formula_json`) of
that instance and of every instance whose dependency tree contains it;
the 8-hex-character truncated signature therefore changes too except
when the truncated SHA-256 values collide (which is possible, as the
counterexample shows). -/
theorem C7_sensitivity_amended (c x y : DClass) (v' : Option String)
    (hocc : occursIn x c = true) (hv : x.version ≠ v')
    (hy : formulaJson y ≠ formulaJson x) :
    formulaJson (substC x (setVersion x v') c) ≠ formulaJson c ∧
    formulaJson (substC x y c) ≠ formulaJson c := by
  constructor
  · have hne := formulaOf_setVersion_ne x v' hv
    intro hjson
    exact formulaOf_substC x (setVersion x v') hne c hocc ((dumps_inj _ _).mp hjson)
  · have hne : formulaOf y ≠ formulaOf x := by
      intro h
      exact hy (by unfold formulaJson; rw [h])
    intro hjson
    exact formulaOf_substC x y hne c hocc ((dumps_inj _ _).mp hjson)

/-- C7, witness: bumping a leaf's version, and swapping the leaf for a
type with a different formula, each change the serialized formula of a
parent depending on it. -/
theorem C7_sensitivity_amended_witness :
    formulaJson (substC (DClass.mk "L" (some "1") true [] false false false .nil)
      (setVersion (DClass.mk "L" (some "1") true [] false false false .nil) (some "2"))
      (DClass.mk "P" (some "1") true [] false false false
        (.cons (DClass.mk "L" (some "1") true [] false false false .nil) .nil))) ≠
    formulaJson (DClass.mk "P" (some "1") true [] false false false
      (.cons (DClass.mk "L" (some "1") true [] false false false .nil) .nil)) ∧
    formulaJson (substC (DClass.mk "L" (some "1") true [] false false false .nil)
      (DClass.mk "M" (some "9") true [] false false false .nil)
      (DClass.mk "P" (some "1") true [] false false false
        (.cons (DClass.mk "L" (some "1") true [] false false false .nil) .nil))) ≠
    formulaJson (DClass.mk "P" (some "1") true [] false false false
      (.cons (DClass.mk "L" (some "1") true [] false false false .nil) .nil)) :=
  C7_sensitivity_amended
    (DClass.mk "P" (some "1") true [] false false false
      (.cons (DClass.mk "L" (some "1") true [] false false false .nil) .nil))
    (DClass.mk "L" (some "1") true [] false false false .nil)
    (DClass.mk "M" (some "9") true [] false false false .nil)
    (some "2") (by decide) (by decide) (by decide)

mutual

theorem hdInit_formulaOf : ∀ (c : DClass) (name sh : Option String),
    (shaTruthy sh = true → sh = some (formulaSha c)) →
    ∃ hd, hdInit (formulaOf c) name sh = .ok hd ∧ hd.hsha = formulaSha c
  | .mk n v tb tg imf hc cf deps, name, sh => by
    intro hsh
    obtain ⟨l, hl⟩ := hdInitInputs_inputsOf deps
    have hstep : hdInit (formulaOf (DClass.mk n v tb tg imf hc cf deps)) name sh =
        (if shaTruthy sh &&
            (some (formulaSha (DClass.mk n v tb tg imf hc cf deps)) != sh) then
          Except.error "Bad SHA"
        else
          match hdInitInputs (inputsOf deps) with
          | .error e => .error e
          | .ok inps => .ok (HData.mk (.str n) (jOfVersion v) name
              (formulaOf (DClass.mk n v tb tg imf hc cf deps))
              (formulaJson (DClass.mk n v tb tg imf hc cf deps))
              (formulaSha (DClass.mk n v tb tg imf hc cf deps)) inps)) := rfl
    rw [hstep]
    cases hst : shaTruthy sh with
    | false =>
      simp only [Bool.false_and, Bool.false_eq_true, if_false, hl]
      exact ⟨_, rfl, rfl⟩
    | true =>
      rw [hsh hst]
      simp only [bne_self_eq_false, Bool.and_false, Bool.false_eq_true, if_false, hl]
      exact ⟨_, rfl, rfl⟩
  termination_by c _ _ => sizeOf c
  decreasing_by
    all_goals first
    | (simp; omega)
    | simp

theorem hdInitInputs_inputsOf : ∀ d : DList,
    ∃ l, hdInitInputs (inputsOf d) = .ok l
  | .nil => ⟨[], rfl⟩
  | .cons c rest => by
    obtain ⟨hd, hhd, _⟩ := hdInit_formulaOf c none none (by simp [shaTruthy])
    obtain ⟨l, hl⟩ := hdInitInputs_inputsOf rest
    rw [show inputsOf (.cons c rest) =
      .cons c.cname (formulaOf c) (inputsOf rest) from rfl]
    rw [show hdInitInputs (.cons c.cname (formulaOf c) (inputsOf rest)) =
      (match hdInit (formulaOf c) none none with
       | .error e => .error e
       | .ok hd =>
         match hdInitInputs (inputsOf rest) with
         | .error e => .error e
         | .ok tl => .ok ((c.cname, hd) :: tl)) from rfl]
    rw [hhd, hl]
    exact ⟨_, rfl⟩
  termination_by d => sizeOf d
  decreasing_by
    all_goals simp
    all_goals omega

end

/-- C10: serialization round-trip: `json.loads` of a dataset's
`formula_json` recovers the formula, and resurrecting it as a
`HistoricalDataset` with the stored `sha` column (the row written by
`_update_system_table`) succeeds — the `Bad SHA` assertion cannot fire
for such a row — and recomputes the same `formula_sha`. -/
theorem C10_roundtrip (iid : String) (c : DClass) :
    loads (rowOf iid c).formula = some (formulaOf c) ∧
    ∃ hd, reconstruct (rowOf iid c) = .ok hd ∧ hd.hsha = formulaSha c := by
  have hload : loads (rowOf iid c).formula = some (formulaOf c) := by
    show loads (formulaJson c) = some (formulaOf c)
    unfold formulaJson
    exact loads_dumps (formulaOf c)
  refine ⟨hload, ?_⟩
  obtain ⟨hd, hhd, hsha⟩ := hdInit_formulaOf c (some (rowOf iid c).name)
    (some (formulaSha c)) (fun _ => rfl)
  refine ⟨hd, ?_, hsha⟩
  unfold reconstruct
  rw [hload]
  exact hhd

/-! ## The build engine: short-circuit, cleanup, idempotence -/

theorem produceRec_exists_short (iid : String) (dry : Bool) (c : DClass) (s : DBState)
    (h : existsB s (formulaSha c) = true) :
    produceRec iid dry c s = (.ok s, [.existsCheck (formulaSha c)]) := by
  cases c with
  | mk n v tb tg imf hc cf deps =>
    rw [produceRec, h, if_pos rfl]

/-- C4: existence short-circuit: whenever `exists()` is truthy,
`produce_recursive` returns at once with the state unchanged; the only
observable event is the single `exists()` poll — no recursion into
dependencies, no `produce()`, no `check()` happens, on the instance or
on any dependency. -/
theorem C4_short_circuit (iid : String) (dry : Bool) (c : DClass) (s : DBState)
    (h : existsB s (formulaSha c) = true) :
    produceRec iid dry c s = (.ok s, [.existsCheck (formulaSha c)]) ∧
    ∀ e ∈ (produceRec iid dry c s).2, ∀ x,
      e ≠ Ev.produceCall x ∧ e ≠ Ev.checkCall x := by
  have heq := produceRec_exists_short iid dry c s h
  refine ⟨heq, ?_⟩
  rw [heq]
  intro e he x
  simp only [List.mem_singleton] at he
  subst he
  exact ⟨fun hc => Ev.noConfusion hc, fun hc => Ev.noConfusion hc⟩

/-- C4, witness at a concrete instance and a state that already holds
its ledger row. -/
theorem C4_short_circuit_witness :
    existsB (DBState.mk []
        [rowOf "i" (DClass.mk "L" (some "1") true [] false false false .nil)])
      (formulaSha (DClass.mk "L" (some "1") true [] false false false .nil)) = true ∧
    produceRec "i" false (DClass.mk "L" (some "1") true [] false false false .nil)
        (DBState.mk []
          [rowOf "i" (DClass.mk "L" (some "1") true [] false false false .nil)]) =
      (.ok (DBState.mk []
          [rowOf "i" (DClass.mk "L" (some "1") true [] false false false .nil)]),
        [.existsCheck (formulaSha (DClass.mk "L" (some "1") true [] false false false .nil))]) :=
  ⟨by decide, (C4_short_circuit "i" false
      (DClass.mk "L" (some "1") true [] false false false .nil)
      (DBState.mk []
        [rowOf "i" (DClass.mk "L" (some "1") true [] false false false .nil)])
      (by decide)).1⟩

theorem length_filter_filter_le (p q : Row → Bool) (l : List Row) :
    ((l.filter p).filter q).length ≤ (l.filter q).length :=
  List.Sublist.length_le (List.Sublist.filter q (List.filter_sublist l))

theorem countSha_cleanup_le (c : DClass) (s : DBState) (sha : String) :
    countSha (cleanupFailedImport c s) sha ≤ countSha s sha :=
  length_filter_filter_le _ _ s.system

theorem countSha_append (ts : List String) (rows ext : List Row) (sha : String) :
    countSha ⟨ts, rows ++ ext⟩ sha =
      countSha ⟨ts, rows⟩ sha + (ext.filter (fun r => r.sha == sha)).length := by
  simp [countSha, List.filter_append]

theorem produceTable_no_row (iid target : String) (c : DClass) (s : DBState)
    (h0 : countSha s target = 0)
    (hne : c.importFails = false → formulaSha c ≠ target) :
    countSha (stateOfE (produceTable iid c s)) target = 0 := by
  have hs : countSha (DBState.mk (s.tables ++ [nameOf c]) s.system) target = 0 := by
    simpa [countSha] using h0
  simp only [produceTable]
  cases himf : c.importFails with
  | true =>
    rw [if_pos rfl]
    have hle := countSha_cleanup_le c (DBState.mk (s.tables ++ [nameOf c]) s.system) target
    show countSha (cleanupFailedImport c (DBState.mk (s.tables ++ [nameOf c]) s.system))
      target = 0
    omega
  | false =>
    rw [if_neg Bool.false_ne_true]
    by_cases hiid : iid = ""
    · rw [if_pos hiid]
      have hle := countSha_cleanup_le c (DBState.mk (s.tables ++ [nameOf c]) s.system) target
      show countSha (cleanupFailedImport c (DBState.mk (s.tables ++ [nameOf c]) s.system))
        target = 0
      omega
    · rw [if_neg hiid]
      show countSha (DBState.mk (s.tables ++ [nameOf c]) (s.system ++ [rowOf iid c]))
        target = 0
      rw [countSha_append]
      have hb : ((rowOf iid c).sha == target) = false :=
        beq_eq_false_iff_ne.mpr (hne himf)
      simp [List.filter, hb, hs]

mutual

theorem produceRec_no_row : ∀ (iid : String) (dry : Bool) (target : String)
    (c : DClass) (s : DBState),
    (∀ y ∈ nodesOf c, formulaSha y = target → y.importFails = true) →
    countSha s target = 0 →
    countSha (stateOfE (produceRec iid dry c s).1) target = 0
  | iid, dry, target, .mk n v tb tg imf hc cf deps, s => by
    intro hfail h0
    rw [produceRec]
    cases hex : existsB s (formulaSha (DClass.mk n v tb tg imf hc cf deps)) with
    | true => rw [if_pos rfl]; exact h0
    | false =>
      rw [if_neg Bool.false_ne_true]
      have hd := produceDeps_no_row iid dry target deps s
        (fun y hy hsha => hfail y (by rw [nodesOf]; exact List.mem_cons_of_mem _ hy) hsha)
        h0
      split
      next s1 tr heq =>
        rw [heq] at hd
        exact hd
      next s1 tr heq =>
        rw [heq] at hd
        cases dry with
        | true => exact hd
        | false =>
          rw [if_neg Bool.false_ne_true]
          have hne : (DClass.mk n v tb tg imf hc cf deps).importFails = false →
              formulaSha (DClass.mk n v tb tg imf hc cf deps) ≠ target := by
            intro hf ht
            have hy := hfail _ (by rw [nodesOf]; exact List.mem_cons_self _ _) ht
            rw [hy] at hf
            exact Bool.noConfusion hf
          have hpt := produceTable_no_row iid target
            (DClass.mk n v tb tg imf hc cf deps) s1 hd hne
          split
          next s2 hptv =>
            rw [hptv] at hpt
            exact hpt
          next s2 hptv =>
            rw [hptv] at hpt
            cases hc <;> cases cf <;> exact hpt
  termination_by _ _ _ c _ => sizeOf c
  decreasing_by
    all_goals first
    | (simp; omega)
    | simp

theorem produceDeps_no_row : ∀ (iid : String) (dry : Bool) (target : String)
    (d : DList) (s : DBState),
    (∀ y ∈ nodesList d, formulaSha y = target → y.importFails = true) →
    countSha s target = 0 →
    countSha (stateOfE (produceDeps iid dry d s).1) target = 0
  | iid, dry, target, .nil, s => by
    intro _ h0
    rw [produceDeps]
    exact h0
  | iid, dry, target, .cons c rest, s => by
    intro hfail h0
    rw [produceDeps]
    have hc1 := produceRec_no_row iid dry target c s
      (fun y hy hsha => hfail y (by rw [nodesList]; exact List.mem_append_left _ hy) hsha)
      h0
    split
    next s1 tr heq =>
      rw [heq] at hc1
      exact hc1
    next s1 tr heq =>
      rw [heq] at hc1
      have hr := produceDeps_no_row iid dry target rest s1
        (fun y hy hsha => hfail y (by rw [nodesList]; exact List.mem_append_right _ hy) hsha)
        hc1
      split
      next r2 tr2 heq2 =>
        rw [heq2] at hr
        exact hr
  termination_by _ _ _ d _ => sizeOf d
  decreasing_by
    all_goals first
    | (simp; omega)
    | simp

end

theorem countSha_def (s : DBState) (sha : String) :
    countSha s sha = (s.system.filter (fun r => r.sha == sha)).length := rfl

theorem produceTable_ok (iid : String) (c : DClass) (s : DBState)
    (himf : c.importFails = false) (hiid : iid ≠ "") :
    produceTable iid c s =
      .ok (DBState.mk (s.tables ++ [nameOf c]) (s.system ++ [rowOf iid c])) := by
  simp only [produceTable, himf, Bool.false_eq_true, if_false, if_neg hiid]

theorem produceRec_step (iid : String) (n : String) (v : Option String)
    (tb : Bool) (tg : List String) (imf hc cf : Bool) (deps : DList)
    (s s1 : DBState) (tr1 : List Ev)
    (hex : existsB s (formulaSha (DClass.mk n v tb tg imf hc cf deps)) = false)
    (hdeps : produceDeps iid false deps s = (.ok s1, tr1)) :
    produceRec iid false (DClass.mk n v tb tg imf hc cf deps) s =
      (match produceTable iid (DClass.mk n v tb tg imf hc cf deps) s1 with
       | .error s2 => (Except.error s2,
           Ev.existsCheck (formulaSha (DClass.mk n v tb tg imf hc cf deps)) ::
             (tr1 ++ [Ev.produceCall (formulaSha (DClass.mk n v tb tg imf hc cf deps))]))
       | .ok s2 =>
         if (DClass.mk n v tb tg imf hc cf deps).hasCheck then
           if (DClass.mk n v tb tg imf hc cf deps).checkFails then
             (Except.error s2,
               Ev.existsCheck (formulaSha (DClass.mk n v tb tg imf hc cf deps)) ::
                 (tr1 ++ [Ev.produceCall (formulaSha (DClass.mk n v tb tg imf hc cf deps)),
                   Ev.checkCall (formulaSha (DClass.mk n v tb tg imf hc cf deps))]))
           else
             (Except.ok s2,
               Ev.existsCheck (formulaSha (DClass.mk n v tb tg imf hc cf deps)) ::
                 (tr1 ++ [Ev.produceCall (formulaSha (DClass.mk n v tb tg imf hc cf deps)),
                   Ev.checkCall (formulaSha (DClass.mk n v tb tg imf hc cf deps))]))
         else
           (Except.ok s2,
             Ev.existsCheck (formulaSha (DClass.mk n v tb tg imf hc cf deps)) ::
               (tr1 ++ [Ev.produceCall (formulaSha (DClass.mk n v tb tg imf hc cf deps))]))) := by
  rw [produceRec, hex, if_neg Bool.false_ne_true, hdeps]
  exact rfl

theorem produceDeps_step (iid : String) (c : DClass) (rest : DList)
    (s s1 : DBState) (tr1 : List Ev)
    (h1 : produceRec iid false c s = (.ok s1, tr1)) :
    produceDeps iid false (.cons c rest) s =
      (match produceDeps iid false rest s1 with
       | (r, tr2) => (r, tr1 ++ tr2)) := by
  rw [produceDeps, h1]

mutual

theorem produceRec_success : ∀ (iid : String) (c : DClass) (s : DBState),
    iid ≠ "" →
    (∀ y ∈ nodesOf c, y.importFails = false ∧ y.checkFails = false) →
    ∃ s1 ext tr, produceRec iid false c s = (.ok s1, tr) ∧
      s1.system = s.system ++ ext ∧
      ∀ r ∈ ext, ∃ y, y ∈ nodesOf c ∧ r.sha = formulaSha y
  | iid, .mk n v tb tg imf hc cf deps, s => by
    intro hiid hok
    have hself := hok (DClass.mk n v tb tg imf hc cf deps)
      (by rw [nodesOf]; exact List.mem_cons_self _ _)
    have himf : imf = false := hself.1
    have hcf : cf = false := hself.2
    subst himf
    subst hcf
    cases hex : existsB s (formulaSha (DClass.mk n v tb tg false hc false deps)) with
    | true =>
      rw [produceRec, hex, if_pos rfl]
      exact ⟨s, [], _, rfl, by simp, by simp⟩
    | false =>
      obtain ⟨s1, ext1, tr1, h1, hsys1, hmem1⟩ := produceDeps_success iid deps s hiid
        (fun y hy => hok y (by rw [nodesOf]; exact List.mem_cons_of_mem _ hy))
      rw [produceRec_step iid n v tb tg false hc false deps s s1 tr1 hex h1]
      rw [produceTable_ok iid (DClass.mk n v tb tg false hc false deps) s1 rfl hiid]
      have hsys2 : (s1.system ++ [rowOf iid (DClass.mk n v tb tg false hc false deps)]) =
          s.system ++ (ext1 ++ [rowOf iid (DClass.mk n v tb tg false hc false deps)]) := by
        rw [hsys1, List.append_assoc]
      have hmem2 : ∀ r ∈ ext1 ++ [rowOf iid (DClass.mk n v tb tg false hc false deps)],
          ∃ y, y ∈ nodesOf (DClass.mk n v tb tg false hc false deps) ∧
            r.sha = formulaSha y := by
        intro r hr
        rcases List.mem_append.mp hr with h | h
        · obtain ⟨y, hy, hs⟩ := hmem1 r h
          exact ⟨y, by rw [nodesOf]; exact List.mem_cons_of_mem _ hy, hs⟩
        · rw [List.mem_singleton.mp h]
          exact ⟨DClass.mk n v tb tg false hc false deps,
            by rw [nodesOf]; exact List.mem_cons_self _ _, rfl⟩
      cases hc with
      | false => exact ⟨_, _, _, rfl, hsys2, hmem2⟩
      | true => exact ⟨_, _, _, rfl, hsys2, hmem2⟩
  termination_by _ c _ => sizeOf c
  decreasing_by
    all_goals first
    | (simp; omega)
    | simp

theorem produceDeps_success : ∀ (iid : String) (d : DList) (s : DBState),
    iid ≠ "" →
    (∀ y ∈ nodesList d, y.importFails = false ∧ y.checkFails = false) →
    ∃ s1 ext tr, produceDeps iid false d s = (.ok s1, tr) ∧
      s1.system = s.system ++ ext ∧
      ∀ r ∈ ext, ∃ y, y ∈ nodesList d ∧ r.sha = formulaSha y
  | iid, .nil, s => by
    intro _ _
    exact ⟨s, [], [], by rw [produceDeps], by simp, by simp⟩
  | iid, .cons c rest, s => by
    intro hiid hok
    obtain ⟨s1, ext1, tr1, h1, hsys1, hmem1⟩ := produceRec_success iid c s hiid
      (fun y hy => hok y (by rw [nodesList]; exact List.mem_append_left _ hy))
    obtain ⟨s2, ext2, tr2, h2, hsys2, hmem2⟩ := produceDeps_success iid rest s1 hiid
      (fun y hy => hok y (by rw [nodesList]; exact List.mem_append_right _ hy))
    refine ⟨s2, ext1 ++ ext2, tr1 ++ tr2, ?_, ?_, ?_⟩
    · rw [produceDeps_step iid c rest s s1 tr1 h1, h2]
    · rw [hsys2, hsys1, List.append_assoc]
    · intro r hr
      rcases List.mem_append.mp hr with h | h
      · obtain ⟨y, hy, hs⟩ := hmem1 r h
        exact ⟨y, by rw [nodesList]; exact List.mem_append_left _ hy, hs⟩
      · obtain ⟨y, hy, hs⟩ := hmem2 r h
        exact ⟨y, by rw [nodesList]; exact List.mem_append_right _ hy, hs⟩
  termination_by _ d _ => sizeOf d
  decreasing_by
    all_goals first
    | (simp; omega)
    | simp

end

/-- C2, counterexample: a failing `check()` is NOT cleaned up: for an
instance whose `produce()` succeeds and whose `check()` raises,
`produce_recursive` propagates the exception but the created table and
the inserted ledger row survive — afterwards `exists()` is true for the
instance.  (`ImportedTable.produce`'s `try`/`except` cleanup only
covers `produce()` itself; `check()` is called by `produce_recursive`
after `produce()` returned, outside any handler.) -/
theorem C2_counterexample :
    (match (produceRec "i" false (DClass.mk "C" (some "1") true [] false true true .nil)
        (DBState.mk [] [])).1 with
     | .error s2 => existsB s2
         (formulaSha (DClass.mk "C" (some "1") true [] false true true .nil))
     | .ok _ => false) = true := by decide

/-- C2, amended: cleanup on failure holds for `produce()` failures, up
to signature collisions: if an instance's `import_table` raises
whenever invoked, and every node of the build tree whose truncated
signature equals the instance's also has an always-failing import (in
particular, whenever no distinct node shares its signature), then a
`produce_recursive` build started with no ledger row for that
signature — whether it ends normally or with a propagated exception —
leaves `exists()` false for the instance and no ledger row with its
signature.  The collision proviso is necessary:
`failed_import_cleanup` deletes ledger rows by table name only, so
when a successfully imported dependency shares the failing root's
truncated signature (realizable, see the C3 collision) the
dependency's row survives and the sha-based `exists()` reports true
for the root.  For `check()` failures the guarantee does not hold at
all, as the counterexample shows. -/
theorem C2_amended (iid : String) (dry : Bool) (R x : DClass) (s0 : DBState)
    (hx : x ∈ nodesOf R)
    (hfail : ∀ y ∈ nodesOf R, formulaSha y = formulaSha x → y.importFails = true)
    (h0 : countSha s0 (formulaSha x) = 0) :
    x.importFails = true ∧
    countSha (stateOfE (produceRec iid dry R s0).1) (formulaSha x) = 0 ∧
    existsB (stateOfE (produceRec iid dry R s0).1) (formulaSha x) = false := by
  refine ⟨hfail x hx rfl, ?_, ?_⟩
  · exact produceRec_no_row iid dry (formulaSha x) R s0 hfail h0
  · have h := produceRec_no_row iid dry (formulaSha x) R s0 hfail h0
    simp [existsB, h]

/-- C2, witness: a single instance whose import always fails, built
from an empty database. -/
theorem C2_amended_witness :
    ((DClass.mk "F" (some "1") true [] true false false .nil) ∈
        nodesOf (DClass.mk "F" (some "1") true [] true false false .nil) ∧
      countSha (DBState.mk [] [])
        (formulaSha (DClass.mk "F" (some "1") true [] true false false .nil)) = 0) ∧
    ((DClass.mk "F" (some "1") true [] true false false .nil).importFails = true ∧
      countSha (stateOfE (produceRec "i" false
          (DClass.mk "F" (some "1") true [] true false false .nil)
          (DBState.mk [] [])).1)
        (formulaSha (DClass.mk "F" (some "1") true [] true false false .nil)) = 0 ∧
      existsB (stateOfE (produceRec "i" false
          (DClass.mk "F" (some "1") true [] true false false .nil)
          (DBState.mk [] [])).1)
        (formulaSha (DClass.mk "F" (some "1") true [] true false false .nil)) = false) :=
  ⟨⟨by decide, by decide⟩,
    C2_amended "i" false (DClass.mk "F" (some "1") true [] true false false .nil)
      (DClass.mk "F" (some "1") true [] true false false .nil) (DBState.mk [] [])
      (by decide) (by decide) (by decide)⟩

/-- C3, counterexample: a truncated-hash collision between a root and
its dependency defeats idempotence: `Leaf` at version `1` and `Par`
depending on it at version `14506cc2d` have different formulas but the
same 8-hex-character signature, and one build from an empty database
already inserts TWO ledger rows with the root's signature (the second
build is a no-op, so "calling twice" ends with two rows, not one). -/
theorem C3_counterexample :
    formulaJson (DClass.mk "L" (some "1") true [] false false false .nil) ≠
      formulaJson (DClass.mk "P" (some "14506cc2d") true [] false false false
        (.cons (DClass.mk "L" (some "1") true [] false false false .nil) .nil)) ∧
    formulaSha (DClass.mk "L" (some "1") true [] false false false .nil) =
      formulaSha (DClass.mk "P" (some "14506cc2d") true [] false false false
        (.cons (DClass.mk "L" (some "1") true [] false false false .nil) .nil)) ∧
    (match produceRec "i" false (DClass.mk "P" (some "14506cc2d") true [] false false false
        (.cons (DClass.mk "L" (some "1") true [] false false false .nil) .nil))
        (DBState.mk [] []) with
     | (.ok s1, _) =>
       match produceRec "i" false (DClass.mk "P" (some "14506cc2d") true [] false false false
           (.cons (DClass.mk "L" (some "1") true [] false false false .nil) .nil)) s1 with
       | (.ok s2, tr2) =>
         (countSha s2 (formulaSha (DClass.mk "P" (some "14506cc2d") true [] false false false
           (.cons (DClass.mk "L" (some "1") true [] false false false .nil) .nil))),
          tr2.length)
       | (.error _, _) => (0, 0)
     | (.error _, _) => (0, 0)) = (2, 1) := by
  exact ⟨by decide, by decide, by decide⟩

/-- C3, amended: idempotence holds when no strict dependency's
truncated signature collides with the root's: a build of a tree whose
imports and checks succeed, from a database with no row for the root's
signature, ends successfully with exactly one ledger row for that
signature, and a second build of the same root returns at once — its
only event is the `exists()` poll, so it performs no production
work. -/
theorem C3_amended (iid : String) (t : DClass) (s0 : DBState)
    (hiid : iid ≠ "")
    (hok : ∀ y ∈ nodesOf t, y.importFails = false ∧ y.checkFails = false)
    (hcol : ∀ y ∈ nodesList t.depends, formulaSha y ≠ formulaSha t)
    (h0 : countSha s0 (formulaSha t) = 0) :
    ∃ s1 tr, produceRec iid false t s0 = (.ok s1, tr) ∧
      countSha s1 (formulaSha t) = 1 ∧
      produceRec iid false t s1 = (.ok s1, [.existsCheck (formulaSha t)]) := by
  cases t with
  | mk n v tb tg imf hc cf deps =>
    have hself := hok (DClass.mk n v tb tg imf hc cf deps)
      (by rw [nodesOf]; exact List.mem_cons_self _ _)
    have himf : imf = false := hself.1
    have hcf : cf = false := hself.2
    subst himf
    subst hcf
    have hex : existsB s0 (formulaSha (DClass.mk n v tb tg false hc false deps)) = false := by
      simp [existsB, h0]
    obtain ⟨sd, ext, trd, hdps, hsys, hmem⟩ := produceDeps_success iid deps s0 hiid
      (fun y hy => hok y (by rw [nodesOf]; exact List.mem_cons_of_mem _ hy))
    have hextz : ext.filter (fun r => r.sha ==
        formulaSha (DClass.mk n v tb tg false hc false deps)) = [] := by
      rw [List.filter_eq_nil_iff]
      intro r hr
      obtain ⟨y, hy, hs⟩ := hmem r hr
      rw [hs]
      simp only [beq_iff_eq]
      exact hcol y hy
    have hsd : countSha sd (formulaSha (DClass.mk n v tb tg false hc false deps)) = 0 := by
      rw [countSha_def, hsys, List.filter_append, List.length_append, hextz]
      simp only [List.length_nil, Nat.add_zero]
      exact h0
    have hS2 : countSha (DBState.mk
        (sd.tables ++ [nameOf (DClass.mk n v tb tg false hc false deps)])
        (sd.system ++ [rowOf iid (DClass.mk n v tb tg false hc false deps)]))
        (formulaSha (DClass.mk n v tb tg false hc false deps)) = 1 := by
      rw [countSha_append]
      have hone : ([rowOf iid (DClass.mk n v tb tg false hc false deps)].filter
          (fun r => r.sha ==
            formulaSha (DClass.mk n v tb tg false hc false deps))).length = 1 := by
        simp [rowOf]
      rw [hone]
      have hz : countSha (DBState.mk
          (sd.tables ++ [nameOf (DClass.mk n v tb tg false hc false deps)]) sd.system)
          (formulaSha (DClass.mk n v tb tg false hc false deps)) = 0 := hsd
      rw [hz]
    have hex2 : existsB (DBState.mk
        (sd.tables ++ [nameOf (DClass.mk n v tb tg false hc false deps)])
        (sd.system ++ [rowOf iid (DClass.mk n v tb tg false hc false deps)]))
        (formulaSha (DClass.mk n v tb tg false hc false deps)) = true := by
      simp [existsB, hS2]
    have hsecond := produceRec_exists_short iid false
      (DClass.mk n v tb tg false hc false deps)
      (DBState.mk (sd.tables ++ [nameOf (DClass.mk n v tb tg false hc false deps)])
        (sd.system ++ [rowOf iid (DClass.mk n v tb tg false hc false deps)])) hex2
    rw [produceRec_step iid n v tb tg false hc false deps s0 sd trd hex hdps]
    rw [produceTable_ok iid (DClass.mk n v tb tg false hc false deps) sd rfl hiid]
    cases hc with
    | false => exact ⟨_, _, rfl, hS2, hsecond⟩
    | true => exact ⟨_, _, rfl, hS2, hsecond⟩

/-- C3, witness: a two-node tree (parent `P` over leaf `L`) with
distinct signatures, built twice from an empty database. -/
theorem C3_amended_witness :
    (("i" : String) ≠ "" ∧
     (∀ y ∈ nodesOf (DClass.mk "P" (some "2") true [] false false false
          (.cons (DClass.mk "L" (some "1") true [] false false false .nil) .nil)),
        y.importFails = false ∧ y.checkFails = false) ∧
     (∀ y ∈ nodesList (DClass.mk "P" (some "2") true [] false false false
          (.cons (DClass.mk "L" (some "1") true [] false false false .nil) .nil)).depends,
        formulaSha y ≠ formulaSha (DClass.mk "P" (some "2") true [] false false false
          (.cons (DClass.mk "L" (some "1") true [] false false false .nil) .nil))) ∧
     countSha (DBState.mk [] [])
       (formulaSha (DClass.mk "P" (some "2") true [] false false false
         (.cons (DClass.mk "L" (some "1") true [] false false false .nil) .nil))) = 0) ∧
    (∃ s1 tr, produceRec "i" false (DClass.mk "P" (some "2") true [] false false false
        (.cons (DClass.mk "L" (some "1") true [] false false false .nil) .nil))
        (DBState.mk [] []) = (.ok s1, tr) ∧
      countSha s1 (formulaSha (DClass.mk "P" (some "2") true [] false false false
        (.cons (DClass.mk "L" (some "1") true [] false false false .nil) .nil))) = 1 ∧
      produceRec "i" false (DClass.mk "P" (some "2") true [] false false false
          (.cons (DClass.mk "L" (some "1") true [] false false false .nil) .nil)) s1 =
        (.ok s1, [.existsCheck (formulaSha (DClass.mk "P" (some "2") true [] false false false
          (.cons (DClass.mk "L" (some "1") true [] false false false .nil) .nil)))])) :=
  ⟨⟨by decide, by decide, by decide, by decide⟩,
    C3_amended "i" (DClass.mk "P" (some "2") true [] false false false
        (.cons (DClass.mk "L" (some "1") true [] false false false .nil) .nil))
      (DBState.mk [] []) (by decide) (by decide) (by decide) (by decide)⟩

/-- C9: when the resolved selection of dataset classes is empty —
`--all` with a tag matching no registered table class, or glob
patterns matching no registered class — `ImportCommand.run` logs an
error and returns exit code `1`, performing no production work (the
returned state is unchanged and the event trace is empty); a
successful run returns `None` instead. -/
theorem C9_unmatched (iid : String) (args : ImportArgs) (regVals : List DClass)
    (s : DBState)
    (hargs : args.all = true ∨
      (args.all = false ∧ args.tag = none ∧ args.datasets ≠ []))
    (hsel : (if args.all then allTableDatasets regVals args.tag
             else args.datasets.flatMap (fun g => globDatasets g false regVals)) = []) :
    importRun iid args regVals s = .ok (some 1, s, []) := by
  unfold importRun importRun.importSelected
  rcases hargs with hall | ⟨hall, htag, hds⟩
  · rw [if_pos hall] at hsel
    rw [if_pos hall, hsel, List.isEmpty_nil, if_pos rfl]
  · rw [hall] at hsel
    rw [if_neg Bool.false_ne_true] at hsel
    have hie : args.datasets.isEmpty = false := by
      cases hv : args.datasets with
      | nil => exact absurd hv hds
      | cons a l => rfl
    rw [hall, if_neg Bool.false_ne_true, htag, Option.isSome_none,
      if_neg Bool.false_ne_true, hie, if_neg Bool.false_ne_true, hsel,
      List.isEmpty_nil, if_pos rfl]

/-- C9, witness: a single registered class `L` and the glob `Z*`,
which matches nothing. -/
theorem C9_unmatched_witness :
    (((ImportArgs.mk false none ["Z*"] false).all = true ∨
      ((ImportArgs.mk false none ["Z*"] false).all = false ∧
       (ImportArgs.mk false none ["Z*"] false).tag = none ∧
       (ImportArgs.mk false none ["Z*"] false).datasets ≠ [])) ∧
     (if (ImportArgs.mk false none ["Z*"] false).all then
        allTableDatasets [DClass.mk "L" (some "1") true [] false false false .nil]
          (ImportArgs.mk false none ["Z*"] false).tag
      else (ImportArgs.mk false none ["Z*"] false).datasets.flatMap
        (fun g => globDatasets g false
          [DClass.mk "L" (some "1") true [] false false false .nil])) = []) ∧
    importRun "i" (ImportArgs.mk false none ["Z*"] false)
        [DClass.mk "L" (some "1") true [] false false false .nil] (DBState.mk [] []) =
      .ok (some 1, DBState.mk [] [], []) :=
  ⟨⟨by decide, by decide⟩,
    C9_unmatched "i" (ImportArgs.mk false none ["Z*"] false)
      [DClass.mk "L" (some "1") true [] false false false .nil] (DBState.mk [] [])
      (by decide) (by decide)⟩

end Cabin
